import Mathlib

/-
Verification of the dogdorm dealer core: a shallow embedding of the scheduler
(src/dogdorm/dealer/dealer_utils.py, dealer.py), the per-(table, af) work
queues (src/dogdorm/worker/work_queue.py) and the constants (src/dogdorm/defs.py),
together with proofs about the embedded operations.

Modelling conventions:
  - Python ints are Int (ids are Nat); Python None-able ints are Option Int.
  - Python dicts are total functions into Option, updated pointwise with upd.
  - Python truthiness of an int field (None or 0 is false) is the predicate falsy.
  - Python exceptions are the PyErr inductive; except KeyError catches both
    keyError and duplicateRecord (DuplicateRecordError subclasses KeyError in
    defs.py), while except DuplicateRecordError catches only duplicateRecord.
  - The doubly linked lists of db/linked_list.py (a file not present in src/)
    are modelled as Lean lists: append is appending at the tail, removing the
    node held by the index is List.erase (each work id is indexed at most once).
  - Wall-clock reads int(time.time()) are passed in as an explicit now
    argument; allocate_work passes its cur_time, matching the deployment in
    which workers do not override current_time.
  - Queue payloads (the group row lists) are elided: queues store group ids,
    and the rows a call returns are the stored group of that id, which the
    scheduler never modifies.
-/

namespace Dogdorm

/-! Constants from src/dogdorm/defs.py. -/

def WORKER_TIMEOUT : Int := 120

def MONITOR_FREQUENCY : Int := 3600

def MAX_SERVER_DOWNTIME : Int := 600

def IMPORT_TEST_NO : Int := 3

def STUN_MAP_TYPE : Int := 3

def STUN_CHANGE_TYPE : Int := 4

def MQTT_TYPE : Int := 5

def TURN_TYPE : Int := 6

def NTP_TYPE : Int := 7

def STATUS_AVAILABLE : Int := 9

def STATUS_DEALT : Int := 11

def STATUS_INIT : Int := 12

def STATUS_DISABLED : Int := 13

def SERVICES_TABLE_TYPE : Int := 14

def ALIASES_TABLE_TYPE : Int := 15

def IMPORTS_TABLE_TYPE : Int := 16

/-- TABLE_TYPES from defs.py: the fixed priority order services, aliases, imports. -/
def TABLE_TYPES : List Int := [SERVICES_TABLE_TYPE, ALIASES_TABLE_TYPE, IMPORTS_TABLE_TYPE]

/-- Address families (socket constants, as cached in defs.py IF_INFO): v4 is 2, v6 is 10. -/
def IP4 : Int := 2

def IP6 : Int := 10

/-- VALID_AFS from the external p2pd package: the two supported address families. -/
def VALID_AFS : List Int := [IP4, IP6]

/-! Basic helpers. -/

/-- Pointwise update of a dictionary modelled as a total function. -/
def upd {α β : Type} [DecidableEq α] (f : α → β) (k : α) (v : β) : α → β :=
  fun x => if x = k then v else f x

/-- Python truthiness test for an optional int: None and 0 are falsy. -/
def falsy (o : Option Int) : Prop := o = none ∨ o = some 0

instance (o : Option Int) : Decidable (falsy o) := by
  unfold falsy; infer_instance

/-- Python exception classes relevant to the dealer. DuplicateRecordError
subclasses KeyError, so an except KeyError handler catches both duplicateRecord
and keyError; an except DuplicateRecordError handler catches only
duplicateRecord; exception is any other exception (caught by neither). -/
inductive PyErr where
  | duplicateRecord : PyErr
  | keyError : String → PyErr
  | exception : String → PyErr
deriving DecidableEq

/-! Data rows (db/mem_db_defs.py is not in src/; the fields below are the ones
the dealer code reads and writes, with the attribute names used there). -/

/-- A status row: liveness and uptime record attached to one row of one table. -/
structure StatusRow where
  table_type : Int
  row_id : Nat
  status : Int
  test_no : Int
  failed_tests : Int
  last_status : Option Int
  last_success : Option Int
  last_uptime : Option Int
  uptime : Int
  max_uptime : Int
deriving DecidableEq

/-- A row of the imports or services table (the fields the dealer reads). -/
structure RecordRow where
  id : Nat
  table_type : Int
  type : Int
  af : Int
  proto : Int
  ip : Option String
  port : Int
  user : Option String
  password : Option String
  alias_id : Option Nat
  fqn : Option String
  group_id : Nat
  status_id : Nat
deriving DecidableEq

/-- An alias row: a DNS name with the most recently observed IP. -/
structure AliasRow where
  id : Nat
  af : Int
  fqn : Option String
  ip : Option String
  group_id : Nat
deriving DecidableEq

/-! WorkQueue (src/dogdorm/worker/work_queue.py): four sublists keyed by the
status enum, an index work id to holding sublist, and per-id timestamps. -/

structure WorkQueue where
  queues : Int → List Nat
  index : Nat → Option Int
  timestamps : Nat → Option Int

/-- The empty WorkQueue (WorkQueue.__init__). -/
def WorkQueue.empty : WorkQueue :=
  { queues := fun _ => [], index := fun _ => none, timestamps := fun _ => none }

/-- WorkQueue.add_work: refuse an already indexed id, else append to the tail
of the chosen sublist, index it and record the timestamp. -/
def WorkQueue.add_work (wq : WorkQueue) (work_id : Nat) (queue_name : Int) (now : Int) :
    Except PyErr WorkQueue :=
  if (wq.index work_id).isSome then
    .error (.keyError "add_work: Work ID already added.")
  else
    .ok { queues := upd wq.queues queue_name (wq.queues queue_name ++ [work_id]),
          index := upd wq.index work_id (some queue_name),
          timestamps := upd wq.timestamps work_id (some now) }

/-- WorkQueue.move_work: unlink the node of work_id from its current sublist,
append it to the tail of the target sublist, refresh the timestamp. -/
def WorkQueue.move_work (wq : WorkQueue) (work_id : Nat) (queue_name : Int) (now : Int) :
    Except PyErr WorkQueue :=
  match wq.index work_id with
  | none => .error (.keyError "move_work: Work ID doesnt exist.")
  | some from_queue =>
    let q1 := upd wq.queues from_queue ((wq.queues from_queue).erase work_id)
    .ok { queues := upd q1 queue_name (q1 queue_name ++ [work_id]),
          index := upd wq.index work_id (some queue_name),
          timestamps := upd wq.timestamps work_id (some now) }

/-! The in-memory database (db/mem_db.py is not in src/; the fields are the
attributes the dealer code under src/ reads: statuses, records, work,
records_by_aliases, aliases_by_ip, plus the uniqueness index and id watermarks
of the MemoryStore described by the spec). -/

structure MemDB where
  statuses : Nat → Option StatusRow
  records : Int → Nat → Option RecordRow
  work : Int → Int → WorkQueue
  records_by_aliases : Nat → List (Int × Nat)
  aliases_by_ip : String → List AliasRow
  uniques_services : List (Int × Int × Int × String × Int)
  next_service_id : Nat
  next_group_id : Nat

/-- Update the work queue of one (table, af) slot. -/
def upd2 (f : Int → Int → WorkQueue) (a b : Int) (v : WorkQueue) : Int → Int → WorkQueue :=
  upd f a (upd (f a) b v)

/-- Update the record stored in one (table, row id) slot. -/
def upd2r (f : Int → Nat → Option RecordRow) (a : Int) (b : Nat) (v : Option RecordRow) :
    Int → Nat → Option RecordRow :=
  upd f a (upd (f a) b v)

/-! allocate_work (dealer_utils.py lines 240 to 279). The Python loop body over
one sublist either returns or breaks on every path, so only the head of each
sublist is ever examined; scan_sublist is that head inspection. -/

/-- One sublist inspection of allocate_work: init hands out the head at once;
otherwise the head is handed out unless it is too fresh, in which case the
whole sublist is skipped (entries are in nondecreasing timestamp order). -/
def scan_sublist (wq : WorkQueue) (status_type : Int) (cur_time mon_freq : Int) : Option Nat :=
  match wq.queues status_type with
  | [] => none
  | group_id :: _ =>
    if status_type = STATUS_INIT then some group_id
    else
      let work_timestamp := (wq.timestamps group_id).getD 0
      let elapsed := max 0 (cur_time - work_timestamp)
      if status_type ≠ STATUS_DEALT ∧ elapsed < mon_freq then none
      else if status_type = STATUS_DEALT ∧ elapsed < WORKER_TIMEOUT then none
      else some group_id

/-- The fixed sublist priority of allocate_work. -/
def alloc_scan_order : List Int := [STATUS_INIT, STATUS_AVAILABLE, STATUS_DEALT]

/-- Scan one WorkQueue in sublist priority order. -/
def find_in_wq (wq : WorkQueue) (cur_time mon_freq : Int) : Option Nat :=
  alloc_scan_order.findSome? fun status_type => scan_sublist wq status_type cur_time mon_freq

/-- The (table, af) visit order: outer loop over table types, inner over afs. -/
def alloc_pairs (table_types need_afs : List Int) : List (Int × Int) :=
  table_types.flatMap fun table_choice => need_afs.map fun need_af => (table_choice, need_af)

/-- Locate the first (table, af, group) hit of allocate_work. -/
def find_work (db : MemDB) (cur_time mon_freq : Int) (p : Int × Int) :
    Option (Int × Int × Nat) :=
  (find_in_wq (db.work p.1 p.2) cur_time mon_freq).map fun gid => (p.1, p.2, gid)

/-- allocate_work: walk (table, af) slots in priority order, hand out the first
eligible group, move it to dealt (refreshing its timestamp to cur_time) and
return its id; return none when every slot is exhausted. The Python function
returns the rows of the group (list_x_to_dict(group)); the id returned here
identifies that group. -/
def allocate_work (db : MemDB) (need_afs table_types : List Int) (cur_time mon_freq : Int) :
    Except PyErr (Option Nat × MemDB) :=
  match (alloc_pairs table_types need_afs).findSome? (find_work db cur_time mon_freq) with
  | none => .ok (none, db)
  | some (table_choice, need_af, group_id) =>
    match (db.work table_choice need_af).move_work group_id STATUS_DEALT cur_time with
    | .error e => .error e
    | .ok wq2 => .ok (some group_id, { db with work := upd2 db.work table_choice need_af wq2 })

/-! mark_complete (dealer_utils.py lines 177 to 225). -/

/-- The target sublist computed at the top of mark_complete: available, unless
the table is imports and the status was tried IMPORT_TEST_NO times or the call
succeeded, in which case disabled (the two successive overwrites of
status_type in the source). -/
def mark_status_type (status : StatusRow) (is_success : Int) : Int :=
  let status_type : Int := STATUS_AVAILABLE
  let status_type :=
    if status.table_type = IMPORTS_TABLE_TYPE ∧ IMPORT_TEST_NO ≤ status.test_no
    then STATUS_DISABLED else status_type
  let status_type :=
    if status.table_type = IMPORTS_TABLE_TYPE ∧ is_success ≠ 0
    then STATUS_DISABLED else status_type
  status_type

/-- The status field updates at the bottom of mark_complete: on success grow
uptime by the time since last_uptime (0 when last_uptime is unset or 0), raise
max_uptime to it when exceeded and stamp last_uptime and last_success; on
failure count the failed test and reset uptime; always bump test_no, stamp
last_status and store the new sublist. -/
def update_status_fields (status : StatusRow) (is_success : Int) (status_type t : Int) :
    StatusRow :=
  let status1 :=
    if is_success ≠ 0 then
      let change := if falsy status.last_uptime then 0
                    else max 0 (t - (status.last_uptime.getD 0))
      let up2 := status.uptime + change
      { status with
        uptime := up2,
        max_uptime := if status.max_uptime < up2 then up2 else status.max_uptime,
        last_uptime := some t,
        last_success := some t }
    else
      { status with failed_tests := status.failed_tests + 1, uptime := 0 }
  { status1 with
    status := status_type,
    test_no := status1.test_no + 1,
    last_status := some t }

/-- mark_complete: route the group of the status row to available (or, for
an import that succeeded or was tried IMPORT_TEST_NO times, to disabled), then
update the uptime statistics, bump test_no and stamp last_status. The t
argument is the resolved timestamp (in Python, t or int(time.time())). -/
def mark_complete (db : MemDB) (is_success : Int) (status_id : Nat) (t : Int) :
    Except PyErr MemDB :=
  match db.statuses status_id with
  | none => .error (.keyError "could not load status row")
  | some status =>
    let status_type := mark_status_type status is_success
    match db.records status.table_type status.row_id with
    | none => .error (.keyError "record row missing")
    | some record =>
      match (db.work status.table_type record.af).move_work record.group_id status_type t with
      | .error e => .error e
      | .ok wq2 =>
        .ok { db with
              statuses := upd db.statuses status_id
                (some (update_status_fields status is_success status_type t)),
              work := upd2 db.work status.table_type record.af wq2 }

/-! The /complete endpoint (dealer.py api_work_done, lines 144 to 155). -/

/-- One entry of the /complete payload (dealer_defs.py WorkResultData). -/
structure WorkResultData where
  status_id : Nat
  is_success : Int
  t : Int
deriving DecidableEq

/-- A JSON value appended to the /complete results list. The Python code
appends the return value of mark_complete, and mark_complete has no return
statement, so an applied entry contributes None (JSON null). -/
inductive PyVal where
  | none : PyVal
  | int : Int → PyVal
deriving DecidableEq

/-- api_work_done: apply mark_complete to each entry in order, appending its
(None) return value on success and skipping the entry when mark_complete
raises; every raise site of mark_complete is a KeyError, which the except
KeyError handler catches, so a failing entry never aborts the loop. -/
def api_work_done (db : MemDB) (statuses : List WorkResultData) : List PyVal × MemDB :=
  match statuses with
  | [] => ([], db)
  | e :: rest =>
    match mark_complete db e.is_success e.status_id e.t with
    | .ok db1 =>
      let r := api_work_done db1 rest
      (PyVal.none :: r.1, r.2)
    | .error _ => api_work_done db rest

/-! update_table_ip (dealer_utils.py lines 286 to 319). The external
p2pd.ensure_ip_is_public is abstracted as a boolean predicate is_public; the
try around it succeeds exactly when the predicate holds of the current ip
(None fails the check). -/

/-- The per-row cascade rule of update_table_ip: set the ip of the row when
its current ip is not public, when it is an import never tested, or after a
long enough downtime window (cond_one, cond_two in the source). -/
def update_record_ip (is_public : Option String → Bool) (table_type : Int) (ip : String)
    (current_time : Int) (status : StatusRow) (record : RecordRow) : RecordRow :=
  if is_public record.ip = false then { record with ip := some ip }
  else if table_type = IMPORTS_TABLE_TYPE ∧ status.test_no = 0 then { record with ip := some ip }
  else
    let cond_one := falsy status.last_success ∧ falsy status.last_uptime ∧ 2 ≤ status.test_no
    let cond_two := ¬ falsy status.last_success ∧ ¬ falsy status.last_uptime ∧
      MAX_SERVER_DOWNTIME * 2 < max 0 (current_time - (status.last_uptime.getD 0))
    if cond_one ∨ cond_two then { record with ip := some ip } else record

/-- The loop of update_table_ip over the rows listed under the alias. Records
are held by reference in Python; here they are looked up by (table, id) key
and written back. A missing status row raises KeyError in Python, aborting
the request with the mutations so far kept (the store is global); the early
return models that. A key whose record is absent cannot arise in Python
(the list holds the objects themselves) and is skipped. -/
def update_table_ip_go (is_public : Option String → Bool) (table_type : Int) (ip : String)
    (current_time : Int) : MemDB → List (Int × Nat) → MemDB
  | db, [] => db
  | db, e :: rest =>
    match db.records e.1 e.2 with
    | .none => update_table_ip_go is_public table_type ip current_time db rest
    | .some record =>
      if record.table_type ≠ table_type then
        update_table_ip_go is_public table_type ip current_time db rest
      else
        match db.statuses record.status_id with
        | .none => db
        | .some status =>
          let record2 := update_record_ip is_public table_type ip current_time status record
          update_table_ip_go is_public table_type ip current_time
            { db with records := upd2r db.records e.1 e.2 (some record2) } rest

/-- update_table_ip: run the cascade over every row registered under alias_id. -/
def update_table_ip (is_public : Option String → Bool) (db : MemDB) (table_type : Int)
    (ip : String) (alias_id : Nat) (current_time : Int) : MemDB :=
  update_table_ip_go is_public table_type ip current_time db (db.records_by_aliases alias_id)

/-! get_fqn_list (dealer_utils.py lines 73 to 83). The Python function fills a
set() and returns list(fqns)[::-1]. A CPython set has no insertion order (its
iteration order depends on the randomized string hashes), so the enumeration
of the set is a parameter here: any duplicate-free enumeration of exactly the
collected elements is an admissible behaviour of list(fqns). -/

/-- The set of FQNs collected by get_fqn_list for an ip: the fqn of every
alias indexed under that ip in aliases_by_ip, skipping aliases without one. -/
def get_fqn_set (db : MemDB) (ip : String) : Finset String :=
  ((db.aliases_by_ip ip).filterMap fun a => a.fqn).toFinset

/-- An admissible enumeration of a Python set: duplicate-free and containing
exactly the members of the set. -/
def set_enum_ok (enum : Finset String → List String) (s : Finset String) : Prop :=
  (enum s).Nodup ∧ ∀ x, x ∈ enum s ↔ x ∈ s

/-- get_fqn_list: empty for a missing ip, else the reversal of an enumeration
of the collected fqn set. -/
def get_fqn_list (enum : Finset String → List String) (db : MemDB) (ip : Option String) :
    List String :=
  match ip with
  | .none => []
  | .some ip2 => (enum (get_fqn_set db ip2)).reverse

/-! The /insert endpoint (dealer.py api_insert_services, lines 162 to 198). -/

/-- One service of the /insert payload (dealer_defs.py ServiceData). -/
structure ServiceData where
  service_type : Int
  af : Int
  proto : Int
  ip : String
  port : Int
  user : Option String
  password : Option String
  alias_id : Option Nat
  score : Int
deriving DecidableEq

/-- The canonical uniqueness tuple of a service (spec section 3: services are
unique on (af, proto, type, locator, port); ServiceData carries no fqn, so the
locator is the ip). -/
def service_key (svc : ServiceData) : Int × Int × Int × String × Int :=
  (svc.af, svc.proto, svc.service_type, svc.ip, svc.port)

/-- Modelled from the spec: MemoryStore.insert_service (db/mem_db.py is not in
src/). Raises DuplicateRecord when the canonical tuple is already present;
otherwise stores the new service row under a fresh id and records the tuple.
IP canonicalization is elided (tuples compare as given); the group and status
ids the missing source assigns to the new row are not observable by the
claims settled here and are left at 0 (the group id actually enqueued is
allocated by add_work below). -/
def MemDB.insert_service (db : MemDB) (svc : ServiceData) : Except PyErr (RecordRow × MemDB) :=
  if service_key svc ∈ db.uniques_services then .error .duplicateRecord
  else
    let record : RecordRow :=
      { id := db.next_service_id, table_type := SERVICES_TABLE_TYPE,
        type := svc.service_type, af := svc.af, proto := svc.proto,
        ip := some svc.ip, port := svc.port, user := svc.user,
        password := svc.password, alias_id := svc.alias_id, fqn := none,
        group_id := 0, status_id := 0 }
    .ok (record,
      { db with
        records := upd2r db.records SERVICES_TABLE_TYPE db.next_service_id (some record),
        uniques_services := service_key svc :: db.uniques_services,
        next_service_id := db.next_service_id + 1 })

/-- Modelled from the spec: MemoryStore.add_work (db/mem_db.py is not in
src/) with no explicit group id: allocate the next group id and register the
group in work[table][af] in status init through WorkQueue.add_work (which is
in src/ and embedded above). The row payload is elided as everywhere else. -/
def MemDB.add_work (db : MemDB) (af : Int) (table_type : Int) (now : Int) :
    Except PyErr MemDB :=
  match (db.work table_type af).add_work db.next_group_id STATUS_INIT now with
  | .error e => .error e
  | .ok wq2 =>
    .ok { db with
          work := upd2 db.work table_type af wq2,
          next_group_id := db.next_group_id + 1 }

/-- The member loop of one /insert group: insert each service, collect the
created records and count the members carrying an alias_id; the first failing
insert aborts the loop with its exception while keeping the rows already
inserted (the store is global). -/
def insert_members (db : MemDB) : List ServiceData → MemDB × List RecordRow × Nat × Option PyErr
  | [] => (db, [], 0, none)
  | svc :: rest =>
    match db.insert_service svc with
    | .error e => (db, [], 0, some e)
    | .ok (r, db1) =>
      let res := insert_members db1 rest
      (res.1, r :: res.2.1, (if svc.alias_id.isSome then 1 else 0) + res.2.2.1, res.2.2.2)

/-- One group of the /insert loop: insert the members, then apply the
stun-change alias-count check (records[0].type, raising a plain Exception on
an alias count other than 0 or 4 — and an IndexError on an empty group), then
enqueue the group. The returned error is the exception that escaped the
group body, if any; the try handler around the body catches only
DuplicateRecordError. -/
def insert_group (db : MemDB) (group : List ServiceData) (now : Int) : MemDB × Option PyErr :=
  let res := insert_members db group
  match res.2.2.2 with
  | some e => (res.1, some e)
  | none =>
    match res.2.1 with
    | [] => (res.1, some (.exception "IndexError: records is empty"))
    | r0 :: _ =>
      if r0.type = STUN_CHANGE_TYPE ∧ res.2.2.1 ≠ 0 ∧ res.2.2.1 ≠ 4 then
        (res.1, some (.exception "STUN change servers need even aliases"))
      else
        match res.1.add_work r0.af SERVICES_TABLE_TYPE now with
        | .ok db2 => (db2, none)
        | .error e => (res.1, some e)

/-- The group loop of /insert: a DuplicateRecordError skips the group and
continues; any other exception escapes the endpoint at once (no further
groups, and no mark_complete). -/
def process_imports (db : MemDB) (l : List (List ServiceData)) (now : Int) :
    MemDB × Option PyErr :=
  match l with
  | [] => (db, none)
  | g :: rest =>
    let res := insert_group db g now
    match res.2 with
    | some .duplicateRecord => process_imports res.1 rest now
    | some e => (res.1, some e)
    | none => process_imports res.1 rest now

/-- api_insert_services: run the group loop, and only when it finishes without
an uncaught exception call mark_complete once on the status id of the request,
with is_success 1 exactly when imports_list is nonempty. The returned pair is
the global store after the request together with the exception that escaped,
if any. -/
def api_insert_services (db : MemDB) (imports_list : List (List ServiceData))
    (status_id : Nat) (now : Int) : MemDB × Option PyErr :=
  let res := process_imports db imports_list now
  match res.2 with
  | some e => (res.1, some e)
  | none =>
    match mark_complete res.1 (if imports_list.length ≠ 0 then 1 else 0) status_id now with
    | .ok db2 => (db2, none)
    | .error e => (res.1, some e)

/-! The /work endpoint (dealer.py api_get_work, lines 114 to 141). The
pydantic GetWorkReq accepts any optional int in every field, so no value of
stack_type or table_type is rejected; current_time and monitor_frequency
arrive here already resolved to defaults. DUEL_STACK is a constant of the
external p2pd package and is passed in as a parameter. -/

/-- The candidate af list of api_get_work: the full VALID_AFS for the dual
stack value, a singleton for a recognised af, and the full list otherwise. -/
def need_afs_src (duel_stack : Int) (stack_type : Option Int) : List Int :=
  if stack_type = some duel_stack then VALID_AFS
  else
    match stack_type with
    | some s => if s ∈ VALID_AFS then [s] else VALID_AFS
    | none => VALID_AFS

/-- The candidate table list of api_get_work: a singleton for a recognised
table type, the full priority list otherwise. -/
def table_types_src (table_type : Option Int) : List Int :=
  match table_type with
  | some tt => if tt ∈ TABLE_TYPES then [tt] else TABLE_TYPES
  | none => TABLE_TYPES

/-- api_get_work: resolve the candidate lists and allocate. -/
def api_get_work (duel_stack : Int) (db : MemDB) (stack_type table_type : Option Int)
    (current_time mon_freq : Int) : Except PyErr (Option Nat × MemDB) :=
  allocate_work db (need_afs_src duel_stack stack_type) (table_types_src table_type)
    current_time mon_freq

/-! compute_service_score (dealer_utils.py lines 33 to 65). The Python floats
are idealized as real numbers; the inputs are the already extracted status
fields (the dict extraction defaults missing and falsy fields to 0). -/

/-- compute_service_score: clamp the inputs at 0, form the uptime ratio, the
test factor and the smoothing factor, and clamp the product into [0, 1]. -/
noncomputable def compute_service_score (failed_tests test_no uptime max_uptime : ℝ) : ℝ :=
  let ft := max failed_tests 0
  let tn := max test_no 0
  let up := max uptime 0
  let mu := max max_uptime 0
  let ratio0 := if 0 < mu then up / mu else 0
  let ratio1 := min (max ratio0 0) 1
  let test_factor := 1 - ft / (tn + 1e-9)
  let smoothing_factor := 1 - Real.exp (-tn / 50)
  let quality_score := test_factor * (0.5 * ratio1 + 0.5) * smoothing_factor
  min (max quality_score 0) 1

/-! Specification-side definitions and invariants used by the theorems. -/

/-- The routing rule as the spec states it: disabled exactly for an imports
status with a successful call or test_no at least IMPORT_TEST_NO, otherwise
available. Compared against mark_status_type (translated from the source). -/
def route_spec (status : StatusRow) (is_success : Int) : Int :=
  if status.table_type = IMPORTS_TABLE_TYPE ∧ (is_success ≠ 0 ∨ IMPORT_TEST_NO ≤ status.test_no)
  then STATUS_DISABLED else STATUS_AVAILABLE

/-- The uptime invariant of every stored status row: uptime is nonnegative
and bounded by max_uptime. -/
def status_inv (db : MemDB) : Prop :=
  ∀ sid st, db.statuses sid = some st → 0 ≤ st.uptime ∧ st.uptime ≤ st.max_uptime

/-- Apply one /complete entry: a raising mark_complete leaves the store
unchanged (every raise site fires before any mutation). -/
def apply_complete (db : MemDB) (op : Int × Nat × Int) : MemDB :=
  match mark_complete db op.1 op.2.1 op.2.2 with
  | .ok db1 => db1
  | .error _ => db

/-- Apply a sequence of /complete entries in order. -/
def apply_completes (db : MemDB) (ops : List (Int × Nat × Int)) : MemDB :=
  ops.foldl apply_complete db

/-- Well-formedness of one WorkQueue: each sublist is duplicate-free, the
index points each listed id at its sublist, and each indexed id is listed in
its sublist. This is the consistency the Python index map (work id to node)
maintains. -/
def wq_wf (wq : WorkQueue) : Prop :=
  (∀ q, (wq.queues q).Nodup) ∧
  (∀ id q, id ∈ wq.queues q → wq.index id = some q) ∧
  (∀ id q, wq.index id = some q → id ∈ wq.queues q)

/-- Well-formedness of the whole scheduler state: every queue is well formed
and no group id is indexed in two different (table, af) queues. -/
def global_wf (db : MemDB) : Prop :=
  (∀ tt af, wq_wf (db.work tt af)) ∧
  (∀ id tt af tt2 af2, (db.work tt af).index id ≠ none →
    (db.work tt2 af2).index id ≠ none → tt = tt2 ∧ af = af2)

/-- The state of a group right after allocate_work handed it out at time t:
it sits in the dealt sublist of its (table, af) queue with timestamp t, is
indexed nowhere else, and every queue is well formed. -/
def dealt_alone (db : MemDB) (T A : Int) (G : Nat) (t : Int) : Prop :=
  (db.work T A).index G = some STATUS_DEALT ∧
  (db.work T A).timestamps G = some t ∧
  (∀ tt af, ¬ (tt = T ∧ af = A) → (db.work tt af).index G = none) ∧
  (∀ tt af, wq_wf (db.work tt af))

/-- The group a /complete entry resolves to: the group id of the record the
status row points at. mark_complete moves exactly this group. -/
def completes_group (db : MemDB) (sid : Nat) : Option Nat :=
  match db.statuses sid with
  | none => none
  | some st =>
    match db.records st.table_type st.row_id with
    | none => none
    | some r => some r.group_id

/-- The operations that touch the work queues between two /work calls:
an allocate_work call, a mark_complete call, and the registration of a new
group (the WorkQueue half of MemoryStore.add_work, reached from /insert). -/
inductive Op where
  | alloc : List Int → List Int → Int → Int → Op
  | complete : Int → Nat → Int → Op
  | addGroup : Int → Int → Nat → Int → Op

/-- The side conditions of the no-redeal law on an intervening operation:
allocate calls happen before the worker timeout expires, no mark_complete is
for the status resolving to G, and newly registered groups are not G. -/
def opOK (G : Nat) (t : Int) (R : Nat → Option Nat) : Op → Prop
  | .alloc _ _ cur _ => cur < t + WORKER_TIMEOUT
  | .complete _ sid _ => R sid ≠ some G
  | .addGroup _ _ gid _ => gid ≠ G

/-- Run one operation against the store; a raising operation leaves the store
unchanged (allocate and mark_complete raise before mutating, add_work checks
the index before inserting). -/
def step (db : MemDB) : Op → MemDB
  | .alloc need_afs table_types cur mon =>
    match allocate_work db need_afs table_types cur mon with
    | .ok (_, db1) => db1
    | .error _ => db
  | .complete is_success sid t2 =>
    match mark_complete db is_success sid t2 with
    | .ok db1 => db1
    | .error _ => db
  | .addGroup tt af gid now =>
    match (db.work tt af).add_work gid STATUS_INIT now with
    | .ok wq2 => { db with work := upd2 db.work tt af wq2 }
    | .error _ => db

/-- Run a sequence of operations in order. -/
def run (db : MemDB) (ops : List Op) : MemDB := ops.foldl step db

/-- The group an operation hands out, when it is an allocate call. -/
def alloc_result (db : MemDB) : Op → Option Nat
  | .alloc need_afs table_types cur mon =>
    match allocate_work db need_afs table_types cur mon with
    | .ok (r, _) => r
    | .error _ => none
  | .complete _ _ _ => none
  | .addGroup _ _ _ _ => none

/-- The cascade rule as the spec states it, amended: update when the current
ip is not public, when the row is an import with test_no 0, or when the
server has been down long enough, meaning test_no at least 2 with neither
last_success nor last_uptime set (unset or 0), or both set (nonzero) and
more than 2 * MAX_SERVER_DOWNTIME seconds since last_uptime. Compared against
update_record_ip (translated from the source). -/
def cascade_cond_spec (is_public : Option String → Bool) (table_type : Int)
    (current_time : Int) (status : StatusRow) (record : RecordRow) : Prop :=
  is_public record.ip = false ∨
  (table_type = IMPORTS_TABLE_TYPE ∧ status.test_no = 0) ∨
  (2 ≤ status.test_no ∧ falsy status.last_success ∧ falsy status.last_uptime) ∨
  (¬ falsy status.last_success ∧ ¬ falsy status.last_uptime ∧
    MAX_SERVER_DOWNTIME * 2 < current_time - (status.last_uptime.getD 0))

instance (is_public : Option String → Bool) (tt now : Int) (st : StatusRow)
    (r : RecordRow) : Decidable (cascade_cond_spec is_public tt now st r) := by
  unfold cascade_cond_spec; infer_instance

/-- The record stored at a key after the cascade visited it, computed from the
pre-state: the per-row update applied to the original record and its status. -/
def cascade_row (is_public : Option String → Bool) (db : MemDB) (table_type : Int)
    (ip : String) (current_time : Int) (tt2 : Int) (rid2 : Nat) : Option RecordRow :=
  match db.records tt2 rid2 with
  | none => none
  | some r =>
    match db.statuses r.status_id with
    | none => none
    | some st => some (update_record_ip is_public table_type ip current_time st r)

/-- Freshness of the group id watermark with respect to the queues: no id at
or above next_group_id is indexed anywhere. Spec section 3, invariant 8. -/
def fresh_groups (db : MemDB) : Prop :=
  ∀ tt af g, db.next_group_id ≤ g → (db.work tt af).index g = none

/-- Count the members of an /insert group that carry an alias_id. -/
def count_alias (g : List ServiceData) : Nat :=
  (g.filter fun svc => svc.alias_id.isSome).length

/-- The tail of api_insert_services: the single mark_complete call applied
after the group loop finished, with the store kept on a KeyError. -/
def run_mark_complete (db : MemDB) (is_success : Int) (status_id : Nat) (now : Int) :
    MemDB × Option PyErr :=
  match mark_complete db is_success status_id now with
  | .ok db2 => (db2, none)
  | .error e => (db, some e)

/-! Concrete states used by witnesses and counterexamples. -/

/-- A fresh imports status row. -/
def c3_status : StatusRow :=
  { table_type := IMPORTS_TABLE_TYPE, row_id := 2, status := STATUS_DEALT,
    test_no := 0, failed_tests := 0, last_status := none, last_success := none,
    last_uptime := none, uptime := 0, max_uptime := 0 }

/-- The imports row attached to c3_status, in group 5. -/
def c3_record : RecordRow :=
  { id := 2, table_type := IMPORTS_TABLE_TYPE, type := STUN_MAP_TYPE, af := IP4,
    proto := 1, ip := some "1.2.3.4", port := 3478, user := none, password := none,
    alias_id := none, fqn := none, group_id := 5, status_id := 1 }

/-- A store with one dealt imports group. -/
def c3_db : MemDB :=
  { statuses := fun sid => if sid = 1 then some c3_status else none,
    records := fun tt rid => if tt = IMPORTS_TABLE_TYPE ∧ rid = 2 then some c3_record else none,
    work := fun tt af =>
      if tt = IMPORTS_TABLE_TYPE ∧ af = IP4 then
        { queues := fun q => if q = STATUS_DEALT then [5] else [],
          index := fun gid => if gid = 5 then some STATUS_DEALT else none,
          timestamps := fun gid => if gid = 5 then some 100 else none }
      else WorkQueue.empty,
    records_by_aliases := fun _ => [], aliases_by_ip := fun _ => [],
    uniques_services := [], next_service_id := 0, next_group_id := 6 }

/-- A dealt services status row. -/
def c6_status : StatusRow :=
  { table_type := SERVICES_TABLE_TYPE, row_id := 1, status := STATUS_DEALT,
    test_no := 0, failed_tests := 0, last_status := none, last_success := none,
    last_uptime := none, uptime := 0, max_uptime := 0 }

/-- The services row attached to c6_status, in group 1. -/
def c6_record : RecordRow :=
  { id := 1, table_type := SERVICES_TABLE_TYPE, type := MQTT_TYPE, af := IP4,
    proto := 1, ip := some "9.9.9.9", port := 1883, user := none, password := none,
    alias_id := none, fqn := none, group_id := 1, status_id := 1 }

/-- A store with one dealt services group, for the /complete theorems. -/
def c6_db : MemDB :=
  { statuses := fun sid => if sid = 1 then some c6_status else none,
    records := fun tt rid => if tt = SERVICES_TABLE_TYPE ∧ rid = 1 then some c6_record else none,
    work := fun tt af =>
      if tt = SERVICES_TABLE_TYPE ∧ af = IP4 then
        { queues := fun q => if q = STATUS_DEALT then [1] else [],
          index := fun gid => if gid = 1 then some STATUS_DEALT else none,
          timestamps := fun gid => if gid = 1 then some 100 else none }
      else WorkQueue.empty,
    records_by_aliases := fun _ => [], aliases_by_ip := fun _ => [],
    uniques_services := [], next_service_id := 2, next_group_id := 2 }

/-- The store after applying the /complete entry (1, 1, 500) to c6_db. -/
def c6_mark_db : MemDB := apply_complete c6_db (1, 1, 500)

/-- A services status row whose server is long dead (last_uptime 1995 seconds
before the observation time 2000) but whose last_success was never set. -/
def c7_status : StatusRow :=
  { table_type := SERVICES_TABLE_TYPE, row_id := 1, status := STATUS_AVAILABLE,
    test_no := 5, failed_tests := 0, last_status := none, last_success := none,
    last_uptime := some 5, uptime := 0, max_uptime := 0 }

/-- The services row of c7_status, currently holding a public ip. -/
def c7_record : RecordRow :=
  { id := 1, table_type := SERVICES_TABLE_TYPE, type := MQTT_TYPE, af := IP4,
    proto := 1, ip := some "9.9.9.9", port := 1883, user := none, password := none,
    alias_id := some 3, fqn := none, group_id := 1, status_id := 1 }

/-- A store with c7_record registered under alias 3. -/
def c7w_db : MemDB :=
  { statuses := fun sid => if sid = 1 then some c7_status else none,
    records := fun tt rid =>
      if tt = SERVICES_TABLE_TYPE ∧ rid = 1 then some c7_record else none,
    work := fun _ _ => WorkQueue.empty,
    records_by_aliases := fun aid => if aid = 3 then [(SERVICES_TABLE_TYPE, 1)] else [],
    aliases_by_ip := fun _ => [], uniques_services := [],
    next_service_id := 2, next_group_id := 2 }

/-- A store with two aliases for ip 1.1.1.1, discovered in the order a, b. -/
def c8_db : MemDB :=
  { statuses := fun _ => none, records := fun _ _ => none,
    work := fun _ _ => WorkQueue.empty, records_by_aliases := fun _ => [],
    aliases_by_ip := fun s =>
      if s = "1.1.1.1" then
        [{ id := 1, af := IP4, fqn := some "a", ip := some "1.1.1.1", group_id := 1 },
         { id := 2, af := IP4, fqn := some "b", ip := some "1.1.1.1", group_id := 2 }]
      else [],
    uniques_services := [], next_service_id := 3, next_group_id := 3 }

/-- One admissible enumeration of the Python set holding a and b: the hash
table may yield b before a (string hashing is randomized per process). -/
def c8_enum : Finset String → List String := fun _ => ["b", "a"]

/-- An alias for the witness store. -/
def c8w_alias : AliasRow :=
  { id := 1, af := IP4, fqn := some "x.org", ip := some "7.7.7.7", group_id := 1 }

/-- A store with one alias for ip 7.7.7.7. -/
def c8w_db : MemDB :=
  { statuses := fun _ => none, records := fun _ _ => none,
    work := fun _ _ => WorkQueue.empty, records_by_aliases := fun _ => [],
    aliases_by_ip := fun s => if s = "7.7.7.7" then [c8w_alias] else [],
    uniques_services := [], next_service_id := 2, next_group_id := 2 }

/-- An imports status row awaiting its /insert completion. -/
def c5_status : StatusRow :=
  { table_type := IMPORTS_TABLE_TYPE, row_id := 1, status := STATUS_DEALT,
    test_no := 0, failed_tests := 0, last_status := none, last_success := none,
    last_uptime := none, uptime := 0, max_uptime := 0 }

/-- The imports row of c5_status, in group 5. -/
def c5_record : RecordRow :=
  { id := 1, table_type := IMPORTS_TABLE_TYPE, type := STUN_CHANGE_TYPE, af := IP4,
    proto := 1, ip := some "1.2.3.4", port := 3478, user := none, password := none,
    alias_id := none, fqn := none, group_id := 5, status_id := 7 }

/-- A store with one dealt imports group awaiting /insert. -/
def c5_db : MemDB :=
  { statuses := fun sid => if sid = 7 then some c5_status else none,
    records := fun tt rid => if tt = IMPORTS_TABLE_TYPE ∧ rid = 1 then some c5_record else none,
    work := fun tt af =>
      if tt = IMPORTS_TABLE_TYPE ∧ af = IP4 then
        { queues := fun q => if q = STATUS_DEALT then [5] else [],
          index := fun gid => if gid = 5 then some STATUS_DEALT else none,
          timestamps := fun gid => if gid = 5 then some 100 else none }
      else WorkQueue.empty,
    records_by_aliases := fun _ => [], aliases_by_ip := fun _ => [],
    uniques_services := [], next_service_id := 0, next_group_id := 6 }

/-- A stun-change service carrying an alias on 1 of its 1 members: the group
alias count is neither 0 nor 4, so api_insert_services raises. -/
def c5_svc : ServiceData :=
  { service_type := STUN_CHANGE_TYPE, af := IP4, proto := 1, ip := "8.8.8.8",
    port := 3478, user := none, password := none, alias_id := some 3, score := 0 }

/-- An unremarkable mqtt service for the witness request. -/
def c5w_svc : ServiceData :=
  { service_type := MQTT_TYPE, af := IP4, proto := 1, ip := "8.8.4.4",
    port := 1883, user := none, password := none, alias_id := none, score := 0 }

/-- A store with a single group 7 waiting in the init sublist of the
(services, IPv4) queue; everything else is empty. -/
def c1_wq : WorkQueue :=
  { queues := fun q => if q = STATUS_INIT then [7] else [],
    index := fun gid => if gid = 7 then some STATUS_INIT else none,
    timestamps := fun _ => none }

/-- See c1_wq: the queue sits in the (services, IPv4) slot. -/
def c1_db : MemDB :=
  { statuses := fun _ => none,
    records := fun _ _ => none,
    work := fun tt af =>
      if tt = SERVICES_TABLE_TYPE ∧ af = IP4 then c1_wq else WorkQueue.empty,
    records_by_aliases := fun _ => [], aliases_by_ip := fun _ => [],
    uniques_services := [], next_service_id := 0, next_group_id := 8 }

/-- The store after allocate_work handed group 7 out at time 10000. -/
def c1_db1 : MemDB := step c1_db (Op.alloc [IP4] [SERVICES_TABLE_TYPE] 10000 3600)

/-- A store with group 2 available in the (services, IPv4) queue since time
6500 and group 1 waiting in the init sublist of the (aliases, IPv4) queue. -/
def c2_db : MemDB :=
  { statuses := fun _ => none,
    records := fun _ _ => none,
    work := fun tt af =>
      if tt = SERVICES_TABLE_TYPE ∧ af = IP4 then
        { queues := fun q => if q = STATUS_AVAILABLE then [2] else [],
          index := fun gid => if gid = 2 then some STATUS_AVAILABLE else none,
          timestamps := fun gid => if gid = 2 then some 6500 else none }
      else if tt = ALIASES_TABLE_TYPE ∧ af = IP4 then
        { queues := fun q => if q = STATUS_INIT then [1] else [],
          index := fun gid => if gid = 1 then some STATUS_INIT else none,
          timestamps := fun _ => none }
      else WorkQueue.empty,
    records_by_aliases := fun _ => [], aliases_by_ip := fun _ => [],
    uniques_services := [], next_service_id := 0, next_group_id := 3 }

/-- The store after allocate_work (with the default table priority list)
handed group 1 out at time 10000. -/
def c2_db1 : MemDB := step c2_db (Op.alloc [IP4] TABLE_TYPES 10000 3600)

/-- A queue holding only group 4, dealt at time 500. -/
def c2w_wq : WorkQueue :=
  { queues := fun q => if q = STATUS_DEALT then [4] else [],
    index := fun gid => if gid = 4 then some STATUS_DEALT else none,
    timestamps := fun gid => if gid = 4 then some 500 else none }

/-- A store whose (services, IPv4) slot is c2w_wq. -/
def c2w_db : MemDB :=
  { statuses := fun _ => none,
    records := fun _ _ => none,
    work := fun tt af =>
      if tt = SERVICES_TABLE_TYPE ∧ af = IP4 then c2w_wq else WorkQueue.empty,
    records_by_aliases := fun _ => [], aliases_by_ip := fun _ => [],
    uniques_services := [], next_service_id := 0, next_group_id := 5 }

/-! Helper lemmas about pointwise updates. -/

theorem upd_same {α β : Type} [DecidableEq α] (f : α → β) (k : α) (v : β) :
    upd f k v k = v := by
  simp [upd]

theorem upd_ne {α β : Type} [DecidableEq α] (f : α → β) (k x : α) (v : β) (h : x ≠ k) :
    upd f k v x = f x := by
  simp [upd, h]

/-! Lemmas about WorkQueue.move_work. -/

theorem move_work_ok (wq : WorkQueue) (gid : Nat) (target now : Int) (fq : Int)
    (h : wq.index gid = some fq) :
    wq.move_work gid target now =
      .ok { queues := upd (upd wq.queues fq ((wq.queues fq).erase gid)) target
              ((upd wq.queues fq ((wq.queues fq).erase gid)) target ++ [gid]),
            index := upd wq.index gid (some target),
            timestamps := upd wq.timestamps gid (some now) } := by
  unfold WorkQueue.move_work
  rw [h]

/-! Behaviour of mark_complete on a resolvable status (used by C3). -/

theorem mark_status_type_eq_route_spec (status : StatusRow) (s : Int) :
    mark_status_type status s = route_spec status s := by
  unfold mark_status_type route_spec
  split_ifs <;> first | rfl | tauto

/-- C3: when the status row, its record and its queue entry resolve,
mark_complete succeeds, moves the group to the disabled sublist exactly when
the table is imports and the call succeeded or test_no had reached
IMPORT_TEST_NO (otherwise to the available sublist), increments test_no by
one and sets last_status to t. -/
theorem mark_complete_routes (db : MemDB) (is_success : Int) (status_id : Nat) (t : Int)
    (status : StatusRow) (record : RecordRow) (fq : Int)
    (h1 : db.statuses status_id = some status)
    (h2 : db.records status.table_type status.row_id = some record)
    (h3 : (db.work status.table_type record.af).index record.group_id = some fq) :
    ∃ db1, mark_complete db is_success status_id t = .ok db1 ∧
      ∃ status2, db1.statuses status_id = some status2 ∧
        status2.status = route_spec status is_success ∧
        status2.test_no = status.test_no + 1 ∧
        status2.last_status = some t ∧
        (db1.work status.table_type record.af).index record.group_id =
          some (route_spec status is_success) ∧
        record.group_id ∈
          (db1.work status.table_type record.af).queues (route_spec status is_success) := by
  have hmv := move_work_ok (db.work status.table_type record.af) record.group_id
    (mark_status_type status is_success) t fq h3
  simp only [mark_complete, h1, h2, hmv]
  refine ⟨_, rfl, ?_⟩
  refine ⟨update_status_fields status is_success (mark_status_type status is_success) t,
      ?_, ?_, ?_, ?_, ?_, ?_⟩
  · simp [upd_same]
  · simp [update_status_fields, mark_status_type_eq_route_spec]
  · by_cases hs : is_success ≠ 0 <;> simp [update_status_fields, hs]
  · simp [update_status_fields]
  · simp [upd2, upd_same, mark_status_type_eq_route_spec]
  · rw [← mark_status_type_eq_route_spec]
    simp [upd2, upd_same]

/-- Witness for C3: a successful completion of an imports status moves the
group to disabled with test_no 1. -/
theorem mark_complete_routes_witness :
    ∃ db1, mark_complete c3_db 1 1 500 = .ok db1 ∧
      ∃ status2, db1.statuses 1 = some status2 ∧
        status2.status = route_spec c3_status 1 ∧
        status2.test_no = c3_status.test_no + 1 ∧
        status2.last_status = some 500 ∧
        (db1.work c3_status.table_type c3_record.af).index c3_record.group_id =
          some (route_spec c3_status 1) ∧
        c3_record.group_id ∈
          (db1.work c3_status.table_type c3_record.af).queues (route_spec c3_status 1) :=
  mark_complete_routes c3_db 1 1 500 c3_status c3_record STATUS_DEALT rfl rfl rfl

/-! C4: the uptime invariant and max_uptime monotonicity under mark_complete. -/

theorem mark_complete_ok_elim {db : MemDB} {s : Int} {sid : Nat} {t : Int} {db1 : MemDB}
    (h : mark_complete db s sid t = .ok db1) :
    ∃ status record wq2,
      db.statuses sid = some status ∧
      db.records status.table_type status.row_id = some record ∧
      (db.work status.table_type record.af).move_work record.group_id
        (mark_status_type status s) t = .ok wq2 ∧
      db1 = { db with
              statuses := upd db.statuses sid
                (some (update_status_fields status s (mark_status_type status s) t)),
              work := upd2 db.work status.table_type record.af wq2 } := by
  unfold mark_complete at h
  split at h
  next => exact absurd h (by simp)
  next status heq =>
    dsimp only at h
    split at h
    next => exact absurd h (by simp)
    next record heq2 =>
      split at h
      next => exact absurd h (by simp)
      next wq2 heq3 =>
        injection h with h2
        exact ⟨status, record, wq2, heq, heq2, heq3, h2.symm⟩

theorem update_status_fields_uptime (status : StatusRow) (s st_type t : Int)
    (h0 : 0 ≤ status.uptime) (h1 : status.uptime ≤ status.max_uptime) :
    0 ≤ (update_status_fields status s st_type t).uptime ∧
    (update_status_fields status s st_type t).uptime ≤
      (update_status_fields status s st_type t).max_uptime ∧
    status.max_uptime ≤ (update_status_fields status s st_type t).max_uptime := by
  unfold update_status_fields
  by_cases hs : s ≠ 0
  · simp only [if_pos hs]
    have hch0 : (0 : Int) ≤
        if falsy status.last_uptime then 0 else max 0 (t - status.last_uptime.getD 0) := by
      split
      · exact le_rfl
      · exact le_max_left _ _
    by_cases hlt : status.max_uptime <
        status.uptime + (if falsy status.last_uptime then 0
          else max 0 (t - status.last_uptime.getD 0))
    · simp only [if_pos hlt]
      exact ⟨by omega, le_rfl, le_of_lt hlt⟩
    · simp only [if_neg hlt]
      exact ⟨by omega, by omega, le_rfl⟩
  · simp only [if_neg hs]
    exact ⟨le_rfl, le_trans h0 h1, le_rfl⟩

theorem apply_complete_inv (db : MemDB) (op : Int × Nat × Int) (h : status_inv db) :
    status_inv (apply_complete db op) ∧
    ∀ sid st, db.statuses sid = some st →
      ∃ st1, (apply_complete db op).statuses sid = some st1 ∧
        st.max_uptime ≤ st1.max_uptime := by
  unfold apply_complete
  cases hmc : mark_complete db op.1 op.2.1 op.2.2 with
  | error e => exact ⟨h, fun sid st hs => ⟨st, hs, le_rfl⟩⟩
  | ok db1 =>
    dsimp only
    obtain ⟨status, record, wq2, hs0, hr0, hm0, hdb1⟩ := mark_complete_ok_elim hmc
    obtain ⟨hu0, hu1⟩ := h op.2.1 status hs0
    have hup := update_status_fields_uptime status op.1
      (mark_status_type status op.1) op.2.2 hu0 hu1
    subst hdb1
    constructor
    · intro sid st hst
      by_cases hsid : sid = op.2.1
      · have h3 : upd db.statuses op.2.1
            (some (update_status_fields status op.1 (mark_status_type status op.1) op.2.2))
            sid = some st := hst
        rw [hsid, upd_same] at h3
        injection h3 with hinj
        rw [← hinj]
        exact ⟨hup.1, hup.2.1⟩
      · have h3 : db.statuses sid = some st := by
          have h4 : upd db.statuses op.2.1
              (some (update_status_fields status op.1 (mark_status_type status op.1) op.2.2))
              sid = some st := hst
          rwa [upd_ne _ _ _ _ hsid] at h4
        exact h sid st h3
    · intro sid st hst
      by_cases hsid : sid = op.2.1
      · subst hsid
        have hinj : st = status := Option.some.inj (hst.symm.trans hs0)
        refine ⟨update_status_fields status op.1 (mark_status_type status op.1) op.2.2,
          ?_, ?_⟩
        · exact upd_same _ _ _
        · rw [hinj]; exact hup.2.2
      · exact ⟨st, by rw [show ({db with
            statuses := upd db.statuses op.2.1
              (some (update_status_fields status op.1 (mark_status_type status op.1) op.2.2)),
            work := upd2 db.work status.table_type record.af wq2 : MemDB}).statuses sid =
            upd db.statuses op.2.1
              (some (update_status_fields status op.1 (mark_status_type status op.1) op.2.2))
              sid from rfl, upd_ne _ _ _ _ hsid]; exact hst, le_rfl⟩

/-- C4: starting from any store satisfying the uptime invariant (uptime
nonnegative and at most max_uptime on every status row), every sequence of
mark_complete calls preserves the invariant, and max_uptime never decreases
on any surviving status row. -/
theorem mark_complete_uptime_invariant (ops : List (Int × Nat × Int)) :
    ∀ db : MemDB, status_inv db →
      status_inv (apply_completes db ops) ∧
      ∀ sid st, db.statuses sid = some st →
        ∃ st1, (apply_completes db ops).statuses sid = some st1 ∧
          st.max_uptime ≤ st1.max_uptime := by
  induction ops with
  | nil => exact fun db h => ⟨h, fun sid st hs => ⟨st, hs, le_rfl⟩⟩
  | cons op rest ih =>
    intro db h
    have hstep := apply_complete_inv db op h
    have hrest := ih (apply_complete db op) hstep.1
    refine ⟨hrest.1, ?_⟩
    intro sid st hs
    obtain ⟨st1, hst1, hle1⟩ := hstep.2 sid st hs
    obtain ⟨st2, hst2, hle2⟩ := hrest.2 sid st1 hst1
    exact ⟨st2, hst2, le_trans hle1 hle2⟩

/-- Witness for C4: a success followed by a failure on the imports status of
c3_db keeps the invariant, and its max_uptime does not decrease. -/
theorem mark_complete_uptime_invariant_witness :
    status_inv (apply_completes c3_db [(1, 1, 500), (0, 1, 900)]) ∧
    ∃ st1, (apply_completes c3_db [(1, 1, 500), (0, 1, 900)]).statuses 1 = some st1 ∧
      c3_status.max_uptime ≤ st1.max_uptime := by
  have hinv : status_inv c3_db := by
    intro sid st hst
    by_cases h1 : sid = 1
    · subst h1
      have h2 : some c3_status = some st := by
        rw [← hst]; simp [c3_db]
      injection h2 with h3
      rw [← h3]
      exact ⟨by simp [c3_status], by simp [c3_status]⟩
    · exact absurd hst (by simp [c3_db, h1])
  have h := mark_complete_uptime_invariant [(1, 1, 500), (0, 1, 900)] c3_db hinv
  exact ⟨h.1, h.2 1 c3_status rfl⟩

/-! C9: monotonicity and range of the scoring function. -/

/-- C9: with test_no, uptime and max_uptime held fixed and nonnegative,
compute_service_score is nonincreasing in failed_tests, and its value always
lies in [0, 1]. -/
theorem compute_service_score_monotone :
    (∀ f1 f2 tn up mu : ℝ, 0 ≤ tn → 0 ≤ up → 0 ≤ mu → f1 ≤ f2 →
      compute_service_score f2 tn up mu ≤ compute_service_score f1 tn up mu) ∧
    (∀ f tn up mu : ℝ,
      0 ≤ compute_service_score f tn up mu ∧ compute_service_score f tn up mu ≤ 1) := by
  constructor
  · intro f1 f2 tn up mu htn hup hmu h12
    unfold compute_service_score
    have hd : (0 : ℝ) < max tn 0 + 1e-9 := by
      have : (0 : ℝ) ≤ max tn 0 := le_max_right _ _
      norm_num
      linarith
    have htf : 1 - max f2 0 / (max tn 0 + 1e-9) ≤ 1 - max f1 0 / (max tn 0 + 1e-9) := by
      have : max f1 0 / (max tn 0 + 1e-9) ≤ max f2 0 / (max tn 0 + 1e-9) :=
        (div_le_div_iff_of_pos_right hd).mpr (max_le_max h12 le_rfl)
      linarith
    have hmid : (0 : ℝ) ≤
        0.5 * min (max (if 0 < max mu 0 then max up 0 / max mu 0 else 0) 0) 1 + 0.5 := by
      have h1 : (0 : ℝ) ≤ max (if 0 < max mu 0 then max up 0 / max mu 0 else 0) 0 :=
        le_max_right _ _
      have h2 : (0 : ℝ) ≤ min (max (if 0 < max mu 0 then max up 0 / max mu 0 else 0) 0) 1 :=
        le_min h1 zero_le_one
      linarith
    have hsm : (0 : ℝ) ≤ 1 - Real.exp (-max tn 0 / 50) := by
      have h1 : -max tn 0 / 50 ≤ (0 : ℝ) := by
        have : (0 : ℝ) ≤ max tn 0 := le_max_right _ _
        have : -max tn 0 ≤ (0 : ℝ) := by linarith
        linarith
      have h2 : Real.exp (-max tn 0 / 50) ≤ 1 := Real.exp_le_one_iff.mpr h1
      linarith
    apply min_le_min ?_ le_rfl
    apply max_le_max ?_ le_rfl
    apply mul_le_mul_of_nonneg_right ?_ hsm
    exact mul_le_mul_of_nonneg_right htf hmid
  · intro f tn up mu
    unfold compute_service_score
    refine ⟨le_min (le_max_right _ _) zero_le_one, min_le_right _ _⟩

/-- Witness for C9 at failed_tests 0 and 1, test_no 2, uptime 3, max_uptime 4. -/
theorem compute_service_score_monotone_witness :
    compute_service_score 1 2 3 4 ≤ compute_service_score 0 2 3 4 ∧
    0 ≤ compute_service_score 0 2 3 4 ∧ compute_service_score 0 2 3 4 ≤ 1 :=
  ⟨compute_service_score_monotone.1 0 1 2 3 4 (by norm_num) (by norm_num) (by norm_num)
      (by norm_num),
    (compute_service_score_monotone.2 0 2 3 4).1,
    (compute_service_score_monotone.2 0 2 3 4).2⟩

/-! C10: defaulting of stack_type and table_type in api_get_work. -/

/-- C10: a stack_type that is neither v4, v6 nor the dual stack value (for
example none) yields the full candidate af list, a table_type outside the
three table types yields the full priority list, and such a request behaves
exactly like an explicit dual stack request over all tables; nothing is
rejected. -/
theorem get_work_defaults (duel_stack : Int) (db : MemDB) (stack_type table_type : Option Int)
    (current_time mon_freq : Int)
    (hs1 : stack_type ≠ some duel_stack) (hs2 : stack_type ≠ some IP4)
    (hs3 : stack_type ≠ some IP6) (ht : ∀ x, table_type = some x → x ∉ TABLE_TYPES) :
    need_afs_src duel_stack stack_type = VALID_AFS ∧
    table_types_src table_type = TABLE_TYPES ∧
    api_get_work duel_stack db stack_type table_type current_time mon_freq =
      api_get_work duel_stack db (some duel_stack) none current_time mon_freq := by
  have hafs : need_afs_src duel_stack stack_type = VALID_AFS := by
    cases stack_type with
    | none =>
      unfold need_afs_src
      rw [if_neg hs1]
    | some s =>
      unfold need_afs_src
      rw [if_neg hs1]
      have h2 : s ≠ IP4 := fun h => hs2 (by rw [h])
      have h3 : s ≠ IP6 := fun h => hs3 (by rw [h])
      simp [VALID_AFS, h2, h3]
  have htts : table_types_src table_type = TABLE_TYPES := by
    cases table_type with
    | none => rfl
    | some x =>
      have hx := ht x rfl
      unfold table_types_src
      simp [hx]
  refine ⟨hafs, htts, ?_⟩
  unfold api_get_work
  rw [hafs, htts]
  have h1 : need_afs_src duel_stack (some duel_stack) = VALID_AFS := by
    unfold need_afs_src
    simp
  have h2 : table_types_src none = TABLE_TYPES := rfl
  rw [h1, h2]

/-- Witness for C10: stack_type none, table_type none, a dual stack constant
distinct from both afs, on the empty store. -/
theorem get_work_defaults_witness :
    need_afs_src 99 none = VALID_AFS ∧
    table_types_src none = TABLE_TYPES ∧
    api_get_work 99
      { statuses := fun _ => none, records := fun _ _ => none,
        work := fun _ _ => WorkQueue.empty, records_by_aliases := fun _ => [],
        aliases_by_ip := fun _ => [], uniques_services := [],
        next_service_id := 0, next_group_id := 0 }
      none none 100 3600 =
      api_get_work 99
        { statuses := fun _ => none, records := fun _ _ => none,
          work := fun _ _ => WorkQueue.empty, records_by_aliases := fun _ => [],
          aliases_by_ip := fun _ => [], uniques_services := [],
          next_service_id := 0, next_group_id := 0 }
        (some 99) none 100 3600 :=
  get_work_defaults 99 _ none none 100 3600 (by simp) (by simp) (by simp)
    (by intro x hx; cases hx)

/-! C6: the /complete endpoint. -/

/-- Counterexample for C6: applying one valid /complete entry returns the
list [null], not [1]: mark_complete has no return statement, so the value
appended for an applied entry is None. The entry was applied (test_no of the
status became 1). -/
theorem work_done_counterexample :
    (api_work_done c6_db [⟨1, 1, 500⟩]).1 = [PyVal.none] ∧
    (api_work_done c6_db [⟨1, 1, 500⟩]).1 ≠ [PyVal.int 1] ∧
    ((api_work_done c6_db [⟨1, 1, 500⟩]).2.statuses 1).map StatusRow.test_no = some 1 := by
  refine ⟨by decide, by decide, by decide⟩

/-- C6 (amended): /complete applies entries independently: an entry with an
unknown status_id is skipped, contributing no element and leaving the store
and the remaining entries untouched, and an applied entry contributes the
value None (null, the return value of mark_complete) rather than 1. -/
theorem api_work_done_entries (db : MemDB) (e : WorkResultData) (rest : List WorkResultData) :
    (db.statuses e.status_id = none →
      api_work_done db (e :: rest) = api_work_done db rest) ∧
    (∀ db1, mark_complete db e.is_success e.status_id e.t = .ok db1 →
      api_work_done db (e :: rest) =
        (PyVal.none :: (api_work_done db1 rest).1, (api_work_done db1 rest).2)) := by
  constructor
  · intro hnone
    have herr : mark_complete db e.is_success e.status_id e.t =
        .error (.keyError "could not load status row") := by
      unfold mark_complete
      rw [hnone]
    simp only [api_work_done, herr]
  · intro db1 hok
    simp only [api_work_done, hok]

/-- Witness for C6 (amended): on c6_db, the unknown status 99 is skipped and
the known status 1 contributes None. -/
theorem api_work_done_entries_witness :
    api_work_done c6_db [⟨99, 1, 500⟩] = api_work_done c6_db [] ∧
    api_work_done c6_db [⟨1, 1, 500⟩] =
      (PyVal.none :: (api_work_done c6_mark_db []).1, (api_work_done c6_mark_db []).2) :=
  ⟨(api_work_done_entries c6_db ⟨99, 1, 500⟩ []).1 rfl,
    (api_work_done_entries c6_db ⟨1, 1, 500⟩ []).2 c6_mark_db rfl⟩

/-! C7: the alias cascade rule. -/

theorem upd2r_same (f : Int → Nat → Option RecordRow) (a : Int) (b : Nat)
    (v : Option RecordRow) : upd2r f a b v a b = v := by
  simp [upd2r, upd]

theorem upd2r_ne (f : Int → Nat → Option RecordRow) (a : Int) (b : Nat)
    (v : Option RecordRow) (a2 : Int) (b2 : Nat) (h : ¬ (a2 = a ∧ b2 = b)) :
    upd2r f a b v a2 b2 = f a2 b2 := by
  unfold upd2r upd
  by_cases h1 : a2 = a
  · subst h1
    have h2 : b2 ≠ b := fun hb => h ⟨rfl, hb⟩
    simp [h2]
  · simp [h1]

theorem update_record_ip_spec (is_public : Option String → Bool) (tt : Int) (ip : String)
    (now : Int) (st : StatusRow) (r : RecordRow) :
    update_record_ip is_public tt ip now st r =
      if cascade_cond_spec is_public tt now st r then { r with ip := some ip } else r := by
  have hmax : (MAX_SERVER_DOWNTIME * 2 < max 0 (now - st.last_uptime.getD 0)) ↔
      (MAX_SERVER_DOWNTIME * 2 < now - st.last_uptime.getD 0) := by
    unfold MAX_SERVER_DOWNTIME
    omega
  unfold update_record_ip cascade_cond_spec
  dsimp only
  simp only [hmax]
  split_ifs <;> first | rfl | tauto

theorem update_table_ip_go_spec (is_public : Option String → Bool) (tt : Int) (ip : String)
    (now : Int) :
    ∀ (l : List (Int × Nat)) (db : MemDB),
      l.Nodup →
      (∀ e ∈ l, ∀ r, db.records e.1 e.2 = some r → r.table_type = e.1 ∧
        db.statuses r.status_id ≠ none) →
      (update_table_ip_go is_public tt ip now db l).statuses = db.statuses ∧
      ∀ tt2 rid2, (update_table_ip_go is_public tt ip now db l).records tt2 rid2 =
        if (tt2, rid2) ∈ l ∧ tt2 = tt
        then cascade_row is_public db tt ip now tt2 rid2
        else db.records tt2 rid2 := by
  intro l
  induction l with
  | nil =>
    intro db _ _
    refine ⟨rfl, ?_⟩
    intro tt2 rid2
    simp [update_table_ip_go]
  | cons e rest ih =>
    intro db hnd hres
    obtain ⟨ea, eb⟩ := e
    have hnd2 : rest.Nodup := hnd.of_cons
    have hnotmem : (ea, eb) ∉ rest := (List.nodup_cons.mp hnd).1
    have hres2 : ∀ e2 ∈ rest, ∀ r2, db.records e2.1 e2.2 = some r2 →
        r2.table_type = e2.1 ∧ db.statuses r2.status_id ≠ none :=
      fun e2 he2 => hres e2 (List.mem_cons_of_mem _ he2)
    cases he : db.records ea eb with
    | none =>
      have hgo : update_table_ip_go is_public tt ip now db ((ea, eb) :: rest) =
          update_table_ip_go is_public tt ip now db rest := by
        simp only [update_table_ip_go, he]
      rw [hgo]
      obtain ⟨hst, hrec⟩ := ih db hnd2 hres2
      refine ⟨hst, ?_⟩
      intro tt2 rid2
      rw [hrec tt2 rid2]
      by_cases htt : tt2 = tt
      · rw [htt]
        by_cases hmem : (tt, rid2) ∈ rest
        · have hc1 : (tt, rid2) ∈ rest ∧ tt = tt := ⟨hmem, rfl⟩
          have hc2 : (tt, rid2) ∈ (ea, eb) :: rest ∧ tt = tt :=
            ⟨List.mem_cons_of_mem _ hmem, rfl⟩
          rw [if_pos hc1, if_pos hc2]
        · by_cases heq : (tt, rid2) = (ea, eb)
          · have h2a : tt = ea := congrArg Prod.fst heq
            have h2b : rid2 = eb := congrArg Prod.snd heq
            have hrecnone : db.records tt rid2 = none := by
              rw [h2a, h2b]; exact he
            have hcas : cascade_row is_public db tt ip now tt rid2 = none := by
              unfold cascade_row; rw [hrecnone]
            have hc1 : ¬ ((tt, rid2) ∈ rest ∧ tt = tt) := fun hand => hmem hand.1
            have hc2 : (tt, rid2) ∈ (ea, eb) :: rest ∧ tt = tt :=
              ⟨by rw [heq]; exact List.mem_cons_self _ _, rfl⟩
            rw [if_neg hc1, if_pos hc2, hrecnone, hcas]
          · have hc1 : ¬ ((tt, rid2) ∈ rest ∧ tt = tt) := fun hand => hmem hand.1
            have hc2 : ¬ ((tt, rid2) ∈ (ea, eb) :: rest ∧ tt = tt) := by
              intro hand
              rcases List.mem_cons.mp hand.1 with h | h
              · exact heq h
              · exact hmem h
            rw [if_neg hc1, if_neg hc2]
      · have hc1 : ¬ ((tt2, rid2) ∈ rest ∧ tt2 = tt) := fun hand => htt hand.2
        have hc2 : ¬ ((tt2, rid2) ∈ (ea, eb) :: rest ∧ tt2 = tt) := fun hand => htt hand.2
        rw [if_neg hc1, if_neg hc2]
    | some r =>
      obtain ⟨hfield, hstat⟩ := hres (ea, eb) (List.mem_cons_self _ _) r he
      by_cases htt1 : ea = tt
      · -- the entry is processed: record.table_type = ea = tt
        cases hstatlookup : db.statuses r.status_id with
        | none => exact absurd hstatlookup hstat
        | some st =>
          have hcond : ¬ r.table_type ≠ tt := by
            rw [hfield]; exact not_not_intro htt1
          set db1 : MemDB := { db with records := upd2r db.records ea eb (some (update_record_ip is_public tt ip now st r)) } with hdb1def
          have hmain : update_table_ip_go is_public tt ip now db ((ea, eb) :: rest) =
              update_table_ip_go is_public tt ip now db1 rest := by
            rw [hdb1def]
            simp only [update_table_ip_go, he, hstatlookup]
            rw [if_neg hcond]
          rw [hmain]
          have hres1 : ∀ e2 ∈ rest, ∀ r2, db1.records e2.1 e2.2 = some r2 →
              r2.table_type = e2.1 ∧ db1.statuses r2.status_id ≠ none := by
            intro e2 he2 r2 hr2
            have hne : ¬ (e2.1 = ea ∧ e2.2 = eb) := by
              intro hand
              apply hnotmem
              have he2eq : e2 = (ea, eb) := by
                obtain ⟨e2a, e2b⟩ := e2
                simp only [Prod.mk.injEq]
                exact hand
              rw [← he2eq]; exact he2
            have hr2b : upd2r db.records ea eb
                (some (update_record_ip is_public tt ip now st r)) e2.1 e2.2 = some r2 := by
              rw [hdb1def] at hr2; exact hr2
            rw [upd2r_ne _ _ _ _ _ _ hne] at hr2b
            have hprev := hres2 e2 he2 r2 hr2b
            exact ⟨hprev.1, by rw [hdb1def]; exact hprev.2⟩
          obtain ⟨hst1, hrec1⟩ := ih db1 hnd2 hres1
          constructor
          · rw [hst1, hdb1def]
          · intro tt2 rid2
            rw [hrec1 tt2 rid2]
            by_cases htt : tt2 = tt
            · rw [htt]
              by_cases hmem : (tt, rid2) ∈ rest
              · have hne : ¬ (tt = ea ∧ rid2 = eb) := by
                  intro hand
                  apply hnotmem
                  rw [show (ea, eb) = (tt, rid2) by rw [hand.1, hand.2]]
                  exact hmem
                have hreceq : db1.records tt rid2 = db.records tt rid2 := by
                  rw [hdb1def]
                  exact upd2r_ne _ _ _ _ _ _ hne
                have hcaseq : cascade_row is_public db1 tt ip now tt rid2 =
                    cascade_row is_public db tt ip now tt rid2 := by
                  unfold cascade_row
                  rw [show db1.records tt rid2 = db.records tt rid2 from hreceq, hdb1def]
                have hc1 : (tt, rid2) ∈ rest ∧ tt = tt := ⟨hmem, rfl⟩
                have hc2 : (tt, rid2) ∈ (ea, eb) :: rest ∧ tt = tt :=
                  ⟨List.mem_cons_of_mem _ hmem, rfl⟩
                rw [if_pos hc1, if_pos hc2, hcaseq]
              · by_cases heq : (tt, rid2) = (ea, eb)
                · have h2a : tt = ea := congrArg Prod.fst heq
                  have h2b : rid2 = eb := congrArg Prod.snd heq
                  have hlhs : db1.records tt rid2 =
                      some (update_record_ip is_public tt ip now st r) := by
                    rw [hdb1def, h2a, h2b]
                    exact upd2r_same _ _ _ _
                  have hrhs : cascade_row is_public db tt ip now tt rid2 =
                      some (update_record_ip is_public tt ip now st r) := by
                    unfold cascade_row
                    rw [show db.records tt rid2 = some r by rw [h2a, h2b]; exact he]
                    dsimp only
                    rw [hstatlookup]
                  have hc1 : ¬ ((tt, rid2) ∈ rest ∧ tt = tt) := fun hand => hmem hand.1
                  have hc2 : (tt, rid2) ∈ (ea, eb) :: rest ∧ tt = tt :=
                    ⟨by rw [heq]; exact List.mem_cons_self _ _, rfl⟩
                  rw [if_neg hc1, if_pos hc2, hlhs, hrhs]
                · have hne : ¬ (tt = ea ∧ rid2 = eb) := by
                    intro hand
                    exact heq (by rw [hand.1, hand.2])
                  have hreceq : db1.records tt rid2 = db.records tt rid2 := by
                    rw [hdb1def]
                    exact upd2r_ne _ _ _ _ _ _ hne
                  have hc1 : ¬ ((tt, rid2) ∈ rest ∧ tt = tt) := fun hand => hmem hand.1
                  have hc2 : ¬ ((tt, rid2) ∈ (ea, eb) :: rest ∧ tt = tt) := by
                    intro hand
                    rcases List.mem_cons.mp hand.1 with h | h
                    · exact heq h
                    · exact hmem h
                  rw [if_neg hc1, if_neg hc2, hreceq]
            · have hne : ¬ (tt2 = ea ∧ rid2 = eb) := by
                intro hand
                exact htt (hand.1.trans htt1)
              have hreceq : db1.records tt2 rid2 = db.records tt2 rid2 := by
                rw [hdb1def]
                exact upd2r_ne _ _ _ _ _ _ hne
              have hc1 : ¬ ((tt2, rid2) ∈ rest ∧ tt2 = tt) := fun hand => htt hand.2
              have hc2 : ¬ ((tt2, rid2) ∈ (ea, eb) :: rest ∧ tt2 = tt) :=
                fun hand => htt hand.2
              rw [if_neg hc1, if_neg hc2, hreceq]
      · -- the entry is filtered out: record.table_type = ea differs from tt
        have hcond : r.table_type ≠ tt := by
          rw [hfield]; exact htt1
        have hgo : update_table_ip_go is_public tt ip now db ((ea, eb) :: rest) =
            update_table_ip_go is_public tt ip now db rest := by
          simp only [update_table_ip_go, he]
          rw [if_pos hcond]
        rw [hgo]
        obtain ⟨hst, hrec⟩ := ih db hnd2 hres2
        refine ⟨hst, ?_⟩
        intro tt2 rid2
        rw [hrec tt2 rid2]
        by_cases htt : tt2 = tt
        · rw [htt]
          by_cases hmem : (tt, rid2) ∈ rest
          · have hc1 : (tt, rid2) ∈ rest ∧ tt = tt := ⟨hmem, rfl⟩
            have hc2 : (tt, rid2) ∈ (ea, eb) :: rest ∧ tt = tt :=
              ⟨List.mem_cons_of_mem _ hmem, rfl⟩
            rw [if_pos hc1, if_pos hc2]
          · by_cases heq : (tt, rid2) = (ea, eb)
            · have h2a : tt = ea := congrArg Prod.fst heq
              exact absurd h2a.symm htt1
            · have hc1 : ¬ ((tt, rid2) ∈ rest ∧ tt = tt) := fun hand => hmem hand.1
              have hc2 : ¬ ((tt, rid2) ∈ (ea, eb) :: rest ∧ tt = tt) := by
                intro hand
                rcases List.mem_cons.mp hand.1 with h | h
                · exact heq h
                · exact hmem h
              rw [if_neg hc1, if_neg hc2]
        · have hc1 : ¬ ((tt2, rid2) ∈ rest ∧ tt2 = tt) := fun hand => htt hand.2
          have hc2 : ¬ ((tt2, rid2) ∈ (ea, eb) :: rest ∧ tt2 = tt) := fun hand => htt hand.2
          rw [if_neg hc1, if_neg hc2]

/-- Counterexample for C7: a row whose status has last_uptime set (1995
seconds before now, far beyond 2 * MAX_SERVER_DOWNTIME) but last_success never
set keeps its ip: the source requires both last_success and last_uptime to be
truthy before the downtime test, while the claim asserts the ip is updated
whenever now minus last_uptime exceeds 1200 seconds. The conjuncts exhibit
the facts making the claimed condition true while the row is left unchanged. -/
theorem update_ip_counterexample :
    (update_record_ip (fun _ => true) SERVICES_TABLE_TYPE "5.6.7.8" 2000
        c7_status c7_record).ip = some "9.9.9.9" ∧
    (update_record_ip (fun _ => true) SERVICES_TABLE_TYPE "5.6.7.8" 2000
        c7_status c7_record).ip ≠ some "5.6.7.8" ∧
    MAX_SERVER_DOWNTIME * 2 < 2000 - c7_status.last_uptime.getD 0 ∧
    2 ≤ c7_status.test_no ∧
    falsy c7_status.last_success ∧ ¬ falsy c7_status.last_uptime := by
  decide

/-- C7 (amended): every row listed under the alias whose table matches the
processed table type is rewritten by the per-row cascade rule and every other
record is untouched; and the per-row rule sets the ip exactly when the
current ip is not public, the row is an import with test_no 0, or the server
is down long enough: test_no at least 2 with neither last_success nor
last_uptime set (unset or 0), or both set (nonzero) and more than
2 * MAX_SERVER_DOWNTIME seconds elapsed since last_uptime. -/
theorem update_alias_cascade (is_public : Option String → Bool) (db : MemDB) (tt : Int)
    (ip : String) (alias_id : Nat) (now : Int)
    (hnd : (db.records_by_aliases alias_id).Nodup)
    (hres : ∀ e ∈ db.records_by_aliases alias_id, ∀ r, db.records e.1 e.2 = some r →
      r.table_type = e.1 ∧ db.statuses r.status_id ≠ none) :
    (∀ tt2 rid2, (update_table_ip is_public db tt ip alias_id now).records tt2 rid2 =
      if (tt2, rid2) ∈ db.records_by_aliases alias_id ∧ tt2 = tt
      then cascade_row is_public db tt ip now tt2 rid2
      else db.records tt2 rid2) ∧
    (∀ st r, update_record_ip is_public tt ip now st r =
      if cascade_cond_spec is_public tt now st r then { r with ip := some ip } else r) := by
  constructor
  · exact (update_table_ip_go_spec is_public tt ip now
      (db.records_by_aliases alias_id) db hnd hres).2
  · intro st r
    exact update_record_ip_spec is_public tt ip now st r

/-- Witness for C7 (amended) on c7w_db with alias 3 and new ip 5.6.7.8. -/
theorem update_alias_cascade_witness :
    (∀ tt2 rid2, (update_table_ip (fun _ => true) c7w_db SERVICES_TABLE_TYPE
        "5.6.7.8" 3 2000).records tt2 rid2 =
      if (tt2, rid2) ∈ c7w_db.records_by_aliases 3 ∧ tt2 = SERVICES_TABLE_TYPE
      then cascade_row (fun _ => true) c7w_db SERVICES_TABLE_TYPE "5.6.7.8" 2000 tt2 rid2
      else c7w_db.records tt2 rid2) ∧
    (∀ st r, update_record_ip (fun _ => true) SERVICES_TABLE_TYPE "5.6.7.8" 2000 st r =
      if cascade_cond_spec (fun _ => true) SERVICES_TABLE_TYPE 2000 st r
      then { r with ip := some "5.6.7.8" } else r) :=
  update_alias_cascade (fun _ => true) c7w_db SERVICES_TABLE_TYPE "5.6.7.8" 3 2000
    (by simp [c7w_db])
    (by
      intro e he r hr
      have he2 : e = (SERVICES_TABLE_TYPE, 1) := by simpa [c7w_db] using he
      subst he2
      have hr2 : some c7_record = some r := by
        rw [← hr]; simp [c7w_db]
      injection hr2 with hr3
      rw [← hr3]
      exact ⟨rfl, by simp [c7w_db, c7_record]⟩)

/-! C8: the fqns attached to a catalogue row. -/

/-- Counterexample for C8: the aliases for 1.1.1.1 were discovered in the
order a then b, so the claimed output (reverse insertion order, most recent
first) is [b, a]. The code builds a Python set and returns
list(fqns)[::-1]; a set has no insertion order, and under the admissible
enumeration c8_enum (duplicate-free, exactly the members) the output is
[a, b], not [b, a]. The claimed ordering is therefore not a property of the
code. -/
theorem fqn_order_counterexample :
    set_enum_ok c8_enum (get_fqn_set c8_db "1.1.1.1") ∧
    get_fqn_list c8_enum c8_db (some "1.1.1.1") = ["a", "b"] ∧
    (["a", "b"] : List String) ≠ ["b", "a"] := by
  refine ⟨⟨by decide, ?_⟩, by decide, by decide⟩
  intro x
  have hset : get_fqn_set c8_db "1.1.1.1" = ({"a", "b"} : Finset String) := by decide
  rw [hset]
  simp only [c8_enum, List.mem_cons, List.not_mem_nil, Finset.mem_insert,
    Finset.mem_singleton, or_false]
  tauto

/-- C8 (amended): the fqns field computed for an ip contains, without
duplicates and in an unspecified order (the reversal of an enumeration of a
Python set), exactly the FQNs of the aliases indexed under that ip, which by
the aliases_by_ip index invariant are the aliases whose current IP equals the
row ip. -/
theorem fqn_list_membership (enum : Finset String → List String) (db : MemDB) (ip : String)
    (henum : set_enum_ok enum (get_fqn_set db ip))
    (hix : ∀ a ∈ db.aliases_by_ip ip, a.ip = some ip) :
    (get_fqn_list enum db (some ip)).Nodup ∧
    ∀ x, x ∈ get_fqn_list enum db (some ip) ↔
      ∃ a ∈ db.aliases_by_ip ip, a.ip = some ip ∧ a.fqn = some x := by
  obtain ⟨hnd, hmem⟩ := henum
  constructor
  · unfold get_fqn_list
    exact List.nodup_reverse.mpr hnd
  · intro x
    unfold get_fqn_list
    rw [List.mem_reverse, hmem x]
    unfold get_fqn_set
    rw [List.mem_toFinset, List.mem_filterMap]
    constructor
    · rintro ⟨a, ha, hfa⟩
      exact ⟨a, ha, hix a ha, hfa⟩
    · rintro ⟨a, ha, _, hfa⟩
      exact ⟨a, ha, hfa⟩

/-- Witness for C8 (amended): the canonical enumeration Finset.toList on the
one-alias store c8w_db. -/
theorem fqn_list_membership_witness :
    (get_fqn_list Finset.toList c8w_db (some "7.7.7.7")).Nodup ∧
    ∀ x, x ∈ get_fqn_list Finset.toList c8w_db (some "7.7.7.7") ↔
      ∃ a ∈ c8w_db.aliases_by_ip "7.7.7.7", a.ip = some "7.7.7.7" ∧ a.fqn = some x :=
  fqn_list_membership Finset.toList c8w_db "7.7.7.7"
    ⟨Finset.nodup_toList _, fun _ => Finset.mem_toList⟩
    (by
      intro a ha
      have h2 : a = c8w_alias := by simpa [c8w_db] using ha
      rw [h2]
      rfl)

/-! C5: the /insert endpoint and its single mark_complete call. -/

theorem insert_service_error {db : MemDB} {svc : ServiceData} {e : PyErr}
    (h : db.insert_service svc = .error e) : e = PyErr.duplicateRecord := by
  unfold MemDB.insert_service at h
  split at h
  · injection h with h2
    exact h2.symm
  · exact absurd h (by simp)

theorem insert_service_ok_fields {db : MemDB} {svc : ServiceData} {r : RecordRow}
    {db2 : MemDB} (h : db.insert_service svc = .ok (r, db2)) :
    r.type = svc.service_type ∧ r.af = svc.af ∧
    db2.work = db.work ∧ db2.next_group_id = db.next_group_id := by
  unfold MemDB.insert_service at h
  split at h
  · exact absurd h (by simp)
  · injection h with h2
    have hfst := congrArg Prod.fst h2
    have hsnd := congrArg Prod.snd h2
    dsimp only at hfst hsnd
    refine ⟨?_, ?_, ?_, ?_⟩
    · rw [← hfst]
    · rw [← hfst]
    · rw [← hsnd]
    · rw [← hsnd]

theorem count_alias_cons (svc : ServiceData) (rest : List ServiceData) :
    count_alias (svc :: rest) = (if svc.alias_id.isSome then 1 else 0) + count_alias rest := by
  by_cases h : svc.alias_id.isSome <;>
    simp [count_alias, List.filter_cons, h, Nat.add_comm]

theorem insert_members_facts : ∀ (g : List ServiceData) (db : MemDB),
    (insert_members db g).1.work = db.work ∧
    (insert_members db g).1.next_group_id = db.next_group_id ∧
    (∀ e, (insert_members db g).2.2.2 = some e → e = PyErr.duplicateRecord) ∧
    ((insert_members db g).2.2.2 = none →
      (insert_members db g).2.2.1 = count_alias g ∧
      ∀ svc0 gr, g = svc0 :: gr →
        ∃ r1 rs, (insert_members db g).2.1 = r1 :: rs ∧
          r1.type = svc0.service_type ∧ r1.af = svc0.af) := by
  intro g
  induction g with
  | nil =>
    intro db
    refine ⟨rfl, rfl, ?_, ?_⟩
    · intro e he
      exact absurd he (by simp [insert_members])
    · intro _
      refine ⟨by simp [insert_members, count_alias], ?_⟩
      intro svc0 gr hgr
      cases hgr
  | cons svc rest ih =>
    intro db
    cases hins : db.insert_service svc with
    | error e =>
      have hgo : insert_members db (svc :: rest) = (db, [], 0, some e) := by
        simp only [insert_members, hins]
      rw [hgo]
      refine ⟨rfl, rfl, ?_, ?_⟩
      · intro e2 he2
        have : e = e2 := by injection he2
        rw [← this]
        exact insert_service_error hins
      · intro hnone
        exact absurd hnone (by simp)
    | ok rdb =>
      obtain ⟨r1, db1⟩ := rdb
      obtain ⟨hty, haf, hwork, hnext⟩ := insert_service_ok_fields hins
      have hgo : insert_members db (svc :: rest) =
          ((insert_members db1 rest).1, r1 :: (insert_members db1 rest).2.1,
            (if svc.alias_id.isSome then 1 else 0) + (insert_members db1 rest).2.2.1,
            (insert_members db1 rest).2.2.2) := by
        simp only [insert_members, hins]
      rw [hgo]
      obtain ⟨ihw, ihn, iherr, ihok⟩ := ih db1
      refine ⟨by rw [ihw, hwork], by rw [ihn, hnext], ?_, ?_⟩
      · intro e2 he2
        exact iherr e2 he2
      · intro hnone
        obtain ⟨ihcnt, _⟩ := ihok hnone
        refine ⟨?_, ?_⟩
        · rw [ihcnt, count_alias_cons]
        · intro svc0 gr hgr
          injection hgr with h1 h2
          exact ⟨r1, (insert_members db1 rest).2.1, rfl, by rw [hty, h1], by rw [haf, h1]⟩

theorem add_work_ok (db : MemDB) (af table_type now : Int) (hfresh : fresh_groups db) :
    ∃ db2, db.add_work af table_type now = .ok db2 ∧ fresh_groups db2 := by
  have hidx : (db.work table_type af).index db.next_group_id = none :=
    hfresh table_type af _ le_rfl
  set wq2 : WorkQueue := { queues := upd (db.work table_type af).queues STATUS_INIT ((db.work table_type af).queues STATUS_INIT ++ [db.next_group_id]), index := upd (db.work table_type af).index db.next_group_id (some STATUS_INIT), timestamps := upd (db.work table_type af).timestamps db.next_group_id (some now) } with hwq2
  have hadd : (db.work table_type af).add_work db.next_group_id STATUS_INIT now = .ok wq2 := by
    rw [hwq2]
    unfold WorkQueue.add_work
    rw [hidx]
    rfl
  refine ⟨{ db with work := upd2 db.work table_type af wq2, next_group_id := db.next_group_id + 1 }, ?_, ?_⟩
  · unfold MemDB.add_work
    rw [hadd]
  · intro tt2 af2 g hg
    have hg1 : db.next_group_id + 1 ≤ g := hg
    have hgne : g ≠ db.next_group_id := by omega
    have hg2 : db.next_group_id ≤ g := by omega
    show (upd2 db.work table_type af wq2 tt2 af2).index g = none
    by_cases h2 : tt2 = table_type
    · subst h2
      by_cases h3 : af2 = af
      · subst h3
        rw [show upd2 db.work tt2 af2 wq2 tt2 af2 = wq2 by simp [upd2, upd]]
        rw [hwq2]
        show upd (db.work tt2 af2).index db.next_group_id (some STATUS_INIT) g = none
        rw [upd_ne _ _ _ _ hgne]
        exact hfresh tt2 af2 g hg2
      · rw [show upd2 db.work tt2 af wq2 tt2 af2 = db.work tt2 af2 by
          simp [upd2, upd, h3]]
        exact hfresh tt2 af2 g hg2
    · rw [show upd2 db.work table_type af wq2 tt2 af2 = db.work tt2 af2 by
        simp [upd2, upd, h2]]
      exact hfresh tt2 af2 g hg2

theorem insert_group_ok (db : MemDB) (g : List ServiceData) (now : Int)
    (hfresh : fresh_groups db) (hne : g ≠ [])
    (hstun : ∀ svc0, g.head? = some svc0 → svc0.service_type = STUN_CHANGE_TYPE →
      count_alias g = 0 ∨ count_alias g = 4) :
    ((insert_group db g now).2 = none ∨
      (insert_group db g now).2 = some PyErr.duplicateRecord) ∧
    fresh_groups (insert_group db g now).1 := by
  obtain ⟨hwork, hnext, herr, hok⟩ := insert_members_facts g db
  have hfresh1 : fresh_groups (insert_members db g).1 := by
    intro tt af gid hgid
    rw [hwork]
    exact hfresh tt af gid (by rw [← hnext]; exact hgid)
  cases hmem : (insert_members db g).2.2.2 with
  | some e =>
    have hgo : insert_group db g now = ((insert_members db g).1, some e) := by
      unfold insert_group
      dsimp only
      rw [hmem]
    rw [hgo]
    exact ⟨Or.inr (by rw [herr e hmem]), hfresh1⟩
  | none =>
    obtain ⟨hcnt, hhead⟩ := hok hmem
    obtain ⟨svc0, gr, hg⟩ : ∃ svc0 gr, g = svc0 :: gr := by
      cases g with
      | nil => exact absurd rfl hne
      | cons a b => exact ⟨a, b, rfl⟩
    obtain ⟨r1, rs, hrecs, hty, haf⟩ := hhead svc0 gr hg
    have hcond : ¬ (r1.type = STUN_CHANGE_TYPE ∧
        (insert_members db g).2.2.1 ≠ 0 ∧ (insert_members db g).2.2.1 ≠ 4) := by
      intro hand
      have hsvc0 : svc0.service_type = STUN_CHANGE_TYPE := by
        rw [← hty]
        exact hand.1
      have := hstun svc0 (by rw [hg]; rfl) hsvc0
      rw [hcnt] at hand
      rcases this with h | h
      · exact hand.2.1 h
      · exact hand.2.2 h
    obtain ⟨db2, hadd, hfresh2⟩ :=
      add_work_ok (insert_members db g).1 r1.af SERVICES_TABLE_TYPE now hfresh1
    have hgo : insert_group db g now = (db2, none) := by
      unfold insert_group
      dsimp only
      rw [hmem, hrecs]
      dsimp only
      rw [if_neg hcond, hadd]
    rw [hgo]
    exact ⟨Or.inl rfl, hfresh2⟩

theorem process_imports_cons (db : MemDB) (g : List ServiceData)
    (rest : List (List ServiceData)) (now : Int) :
    process_imports db (g :: rest) now =
      match (insert_group db g now).2 with
      | some PyErr.duplicateRecord => process_imports (insert_group db g now).1 rest now
      | some e => ((insert_group db g now).1, some e)
      | none => process_imports (insert_group db g now).1 rest now := rfl

theorem process_imports_ok : ∀ (l : List (List ServiceData)) (db : MemDB) (now : Int),
    fresh_groups db →
    (∀ g ∈ l, g ≠ [] ∧ (∀ svc0, g.head? = some svc0 →
      svc0.service_type = STUN_CHANGE_TYPE → count_alias g = 0 ∨ count_alias g = 4)) →
    (process_imports db l now).2 = none ∧ fresh_groups (process_imports db l now).1 := by
  intro l
  induction l with
  | nil =>
    intro db now hfresh _
    exact ⟨rfl, hfresh⟩
  | cons g rest ih =>
    intro db now hfresh hgroups
    obtain ⟨hne, hstun⟩ := hgroups g (List.mem_cons_self _ _)
    have hrest := fun g2 hg2 => hgroups g2 (List.mem_cons_of_mem _ hg2)
    obtain ⟨horr, hfresh1⟩ := insert_group_ok db g now hfresh hne hstun
    cases horr with
    | inl hnone =>
      have hgo : process_imports db (g :: rest) now =
          process_imports (insert_group db g now).1 rest now := by
        rw [process_imports_cons, hnone]
      rw [hgo]
      exact ih (insert_group db g now).1 now hfresh1 hrest
    | inr hdup =>
      have hgo : process_imports db (g :: rest) now =
          process_imports (insert_group db g now).1 rest now := by
        rw [process_imports_cons, hdup]
      rw [hgo]
      exact ih (insert_group db g now).1 now hfresh1 hrest

/-- C5 (amended): provided every group of the request is nonempty and every
stun-change group carries an alias_id on 0 or 4 of its members, the group loop
of api_insert_services never aborts (a DuplicateRecord only skips its group),
and the request reduces to exactly one mark_complete call on the request
status id with is_success 1 exactly when imports_list is nonempty. A request
containing a violating stun-change group instead raises an uncaught exception
before mark_complete (see the counterexample). -/
theorem insert_services_single_complete (db : MemDB) (l : List (List ServiceData))
    (status_id : Nat) (now : Int)
    (hfresh : fresh_groups db)
    (hgroups : ∀ g ∈ l, g ≠ [] ∧ (∀ svc0, g.head? = some svc0 →
      svc0.service_type = STUN_CHANGE_TYPE → count_alias g = 0 ∨ count_alias g = 4)) :
    (process_imports db l now).2 = none ∧
    api_insert_services db l status_id now =
      run_mark_complete (process_imports db l now).1
        (if l.length ≠ 0 then 1 else 0) status_id now := by
  obtain ⟨hnone, _⟩ := process_imports_ok l db now hfresh hgroups
  refine ⟨hnone, ?_⟩
  unfold api_insert_services run_mark_complete
  dsimp only
  rw [hnone]

/-- Witness for C5 (amended): one well formed mqtt group on c5_db reduces to
the single mark_complete call on status 7. -/
theorem insert_services_single_complete_witness :
    (process_imports c5_db [[c5w_svc]] 1000).2 = none ∧
    api_insert_services c5_db [[c5w_svc]] 7 1000 =
      run_mark_complete (process_imports c5_db [[c5w_svc]] 1000).1
        (if ([[c5w_svc]] : List (List ServiceData)).length ≠ 0 then 1 else 0) 7 1000 :=
  insert_services_single_complete c5_db [[c5w_svc]] 7 1000
    (by
      intro tt af g hg
      have hg6 : 6 ≤ g := hg
      have h5 : g ≠ 5 := by omega
      by_cases h : tt = IMPORTS_TABLE_TYPE ∧ af = IP4 <;>
        simp [c5_db, h, h5, WorkQueue.empty])
    (by
      intro g hg
      have hg2 : g = [c5w_svc] := by simpa using hg
      subst hg2
      refine ⟨by simp, ?_⟩
      intro svc0 h1 h2
      injection h1 with h3
      rw [← h3] at h2
      exact absurd h2 (by decide))

/-- Counterexample for C5: a request whose single group is a stun-change
group with an alias count of 1 aborts with the uncaught plain Exception of
dealer.py line 183 (only DuplicateRecordError is caught), and mark_complete
is never invoked: status 7 is left exactly as it was (test_no would have
become 1 and last_status 1000). -/
theorem insert_services_stun_counterexample :
    (api_insert_services c5_db [[c5_svc]] 7 1000).2 =
      some (PyErr.exception "STUN change servers need even aliases") ∧
    (api_insert_services c5_db [[c5_svc]] 7 1000).1.statuses 7 = some c5_status := by
  exact ⟨by decide, by decide⟩

/-! Machinery for the scheduling laws (C1, C2): queue well-formedness is
preserved by every queue operation, and a freshly dealt group cannot be
handed out again before the worker timeout. -/

theorem upd2_same (f : Int → Int → WorkQueue) (a b : Int) (v : WorkQueue) :
    upd2 f a b v a b = v := by
  simp [upd2, upd]

theorem upd2_ne (f : Int → Int → WorkQueue) (a b : Int) (v : WorkQueue) (a2 b2 : Int)
    (h : ¬ (a2 = a ∧ b2 = b)) : upd2 f a b v a2 b2 = f a2 b2 := by
  unfold upd2 upd
  by_cases h1 : a2 = a
  · subst h1
    have h2 : b2 ≠ b := fun hb => h ⟨rfl, hb⟩
    simp [h2]
  · simp [h1]

theorem findSome_mem {α β : Type} {l : List α} {f : α → Option β} {b : β}
    (h : l.findSome? f = some b) : ∃ a ∈ l, f a = some b := by
  induction l with
  | nil => exact absurd h (by simp)
  | cons x xs ih =>
    rw [List.findSome?_cons] at h
    cases hfx : f x with
    | some y =>
      rw [hfx] at h
      dsimp only at h
      exact ⟨x, List.mem_cons_self _ _, by rw [hfx]; exact h⟩
    | none =>
      rw [hfx] at h
      dsimp only at h
      obtain ⟨a, ha, hfa⟩ := ih h
      exact ⟨a, List.mem_cons_of_mem _ ha, hfa⟩

theorem scan_sublist_eq_some {wq : WorkQueue} {q cur mon : Int} {gid : Nat}
    (h : scan_sublist wq q cur mon = some gid) :
    ∃ rest, wq.queues q = gid :: rest ∧
      (q = STATUS_DEALT →
        ¬ (max 0 (cur - (wq.timestamps gid).getD 0) < WORKER_TIMEOUT)) := by
  unfold scan_sublist at h
  cases hq : wq.queues q with
  | nil =>
    rw [hq] at h
    exact absurd h (by simp)
  | cons x xs =>
    rw [hq] at h
    dsimp only at h
    by_cases h1 : q = STATUS_INIT
    · rw [if_pos h1] at h
      injection h with h2
      subst h2
      refine ⟨xs, rfl, ?_⟩
      intro hqd
      rw [h1] at hqd
      exact absurd hqd (by decide)
    · rw [if_neg h1] at h
      split at h
      · exact absurd h (by simp)
      · split at h
        · exact absurd h (by simp)
        next h3 =>
          injection h with h2
          subst h2
          refine ⟨xs, rfl, ?_⟩
          intro hqd hlt
          exact h3 ⟨hqd, hlt⟩

theorem move_work_isSome {wq : WorkQueue} {gid : Nat} {target now : Int} {wq2 : WorkQueue}
    (h : wq.move_work gid target now = .ok wq2) : ∃ fq, wq.index gid = some fq := by
  cases hidx : wq.index gid with
  | none =>
    unfold WorkQueue.move_work at h
    rw [hidx] at h
    exact absurd h (by simp)
  | some fq => exact ⟨fq, rfl⟩

theorem move_work_wf {wq : WorkQueue} {gid : Nat} {target now : Int} {wq2 : WorkQueue}
    (hwf : wq_wf wq) (hmv : wq.move_work gid target now = .ok wq2) :
    wq_wf wq2 ∧ wq2.index = upd wq.index gid (some target) ∧
    wq2.timestamps = upd wq.timestamps gid (some now) := by
  obtain ⟨fq, hidx⟩ := move_work_isSome hmv
  rw [move_work_ok wq gid target now fq hidx] at hmv
  injection hmv with h2
  obtain ⟨hnd, hmi, him⟩ := hwf
  have hgid_q1 : ∀ q, gid ∉ upd wq.queues fq ((wq.queues fq).erase gid) q := by
    intro q hmem
    by_cases hqf : q = fq
    · rw [hqf, upd_same] at hmem
      exact (hnd fq).not_mem_erase hmem
    · rw [upd_ne _ _ _ _ hqf] at hmem
      have h3 := hmi gid q hmem
      rw [hidx] at h3
      injection h3 with h4
      exact hqf h4.symm
  have hmem_q1 : ∀ id q, id ∈ upd wq.queues fq ((wq.queues fq).erase gid) q →
      id ≠ gid ∧ wq.index id = some q := by
    intro id q hmem
    have hne : id ≠ gid := fun h => hgid_q1 q (h ▸ hmem)
    refine ⟨hne, ?_⟩
    by_cases hqf : q = fq
    · rw [hqf, upd_same] at hmem
      rw [List.mem_erase_of_ne hne] at hmem
      rw [hqf]
      exact hmi id fq hmem
    · rw [upd_ne _ _ _ _ hqf] at hmem
      exact hmi id q hmem
  have hq1_mem : ∀ id q, wq.index id = some q → id ≠ gid →
      id ∈ upd wq.queues fq ((wq.queues fq).erase gid) q := by
    intro id q hq hne
    by_cases hqf : q = fq
    · rw [hqf, upd_same, List.mem_erase_of_ne hne]
      rw [hqf] at hq
      exact him id fq hq
    · rw [upd_ne _ _ _ _ hqf]
      exact him id q hq
  subst h2
  refine ⟨⟨?_, ?_, ?_⟩, rfl, rfl⟩
  · intro q
    show (upd (upd wq.queues fq ((wq.queues fq).erase gid)) target
      (upd wq.queues fq ((wq.queues fq).erase gid) target ++ [gid]) q).Nodup
    by_cases hqt : q = target
    · rw [hqt, upd_same, List.nodup_append]
      refine ⟨?_, by simp, ?_⟩
      · by_cases htf : target = fq
        · rw [htf, upd_same]
          exact (hnd fq).erase gid
        · rw [upd_ne _ _ _ _ htf]
          exact hnd target
      · intro a ha hb
        rw [List.mem_singleton] at hb
        subst hb
        exact hgid_q1 target ha
    · rw [upd_ne _ _ _ _ hqt]
      by_cases hqf : q = fq
      · rw [hqf, upd_same]
        exact (hnd fq).erase gid
      · rw [upd_ne _ _ _ _ hqf]
        exact hnd q
  · intro id q hmem
    have hmem2 : id ∈ upd (upd wq.queues fq ((wq.queues fq).erase gid)) target
        (upd wq.queues fq ((wq.queues fq).erase gid) target ++ [gid]) q := hmem
    show upd wq.index gid (some target) id = some q
    by_cases hqt : q = target
    · subst hqt
      rw [upd_same] at hmem2
      rcases List.mem_append.mp hmem2 with h | h
      · obtain ⟨hne, hq⟩ := hmem_q1 id q h
        rw [upd_ne _ _ _ _ hne]
        exact hq
      · rw [List.mem_singleton] at h
        subst h
        rw [upd_same]
    · rw [upd_ne _ _ _ _ hqt] at hmem2
      obtain ⟨hne, hq⟩ := hmem_q1 id q hmem2
      rw [upd_ne _ _ _ _ hne]
      exact hq
  · intro id q hidq
    have hidq2 : upd wq.index gid (some target) id = some q := hidq
    show id ∈ upd (upd wq.queues fq ((wq.queues fq).erase gid)) target
      (upd wq.queues fq ((wq.queues fq).erase gid) target ++ [gid]) q
    by_cases hidg : id = gid
    · subst hidg
      rw [upd_same] at hidq2
      injection hidq2 with h4
      rw [← h4, upd_same]
      exact List.mem_append.mpr (Or.inr (List.mem_singleton.mpr rfl))
    · rw [upd_ne _ _ _ _ hidg] at hidq2
      have hq1 := hq1_mem id q hidq2 hidg
      by_cases hqt : q = target
      · subst hqt
        rw [upd_same]
        exact List.mem_append.mpr (Or.inl hq1)
      · rw [upd_ne _ _ _ _ hqt]
        exact hq1

theorem add_work_wf {wq : WorkQueue} {gid : Nat} {qn now : Int} {wq2 : WorkQueue}
    (hwf : wq_wf wq) (hadd : wq.add_work gid qn now = .ok wq2) :
    wq_wf wq2 ∧ wq2.index = upd wq.index gid (some qn) ∧ wq.index gid = none ∧
    wq2.timestamps = upd wq.timestamps gid (some now) := by
  unfold WorkQueue.add_work at hadd
  split at hadd
  · exact absurd hadd (by simp)
  next hnot =>
    have hnone : wq.index gid = none := by
      cases h : wq.index gid with
      | none => rfl
      | some v =>
        rw [h] at hnot
        exact absurd rfl hnot
    injection hadd with h2
    subst h2
    obtain ⟨hnd, hmi, him⟩ := hwf
    have hgid_notmem : ∀ q, gid ∉ wq.queues q := by
      intro q hmem
      have h3 := hmi gid q hmem
      rw [hnone] at h3
      cases h3
    refine ⟨⟨?_, ?_, ?_⟩, rfl, hnone, rfl⟩
    · intro q
      show (upd wq.queues qn (wq.queues qn ++ [gid]) q).Nodup
      by_cases hq : q = qn
      · rw [hq, upd_same, List.nodup_append]
        refine ⟨hnd qn, by simp, ?_⟩
        intro a ha hb
        rw [List.mem_singleton] at hb
        subst hb
        exact hgid_notmem qn ha
      · rw [upd_ne _ _ _ _ hq]
        exact hnd q
    · intro id q hmem
      have hmem2 : id ∈ upd wq.queues qn (wq.queues qn ++ [gid]) q := hmem
      show upd wq.index gid (some qn) id = some q
      by_cases hq : q = qn
      · subst hq
        rw [upd_same] at hmem2
        rcases List.mem_append.mp hmem2 with h | h
        · have hne : id ≠ gid := fun he => hgid_notmem q (he ▸ h)
          rw [upd_ne _ _ _ _ hne]
          exact hmi id q h
        · rw [List.mem_singleton] at h
          subst h
          rw [upd_same]
      · rw [upd_ne _ _ _ _ hq] at hmem2
        have hne : id ≠ gid := fun he => hgid_notmem q (he ▸ hmem2)
        rw [upd_ne _ _ _ _ hne]
        exact hmi id q hmem2
    · intro id q hidq
      have hidq2 : upd wq.index gid (some qn) id = some q := hidq
      show id ∈ upd wq.queues qn (wq.queues qn ++ [gid]) q
      by_cases hidg : id = gid
      · subst hidg
        rw [upd_same] at hidq2
        injection hidq2 with h4
        rw [← h4, upd_same]
        exact List.mem_append.mpr (Or.inr (List.mem_singleton.mpr rfl))
      · rw [upd_ne _ _ _ _ hidg] at hidq2
        have hmem := him id q hidq2
        by_cases hq : q = qn
        · subst hq
          rw [upd_same]
          exact List.mem_append.mpr (Or.inl hmem)
        · rw [upd_ne _ _ _ _ hq]
          exact hmem

theorem scan_ne {wq : WorkQueue} {q cur mon : Int} {G : Nat}
    (hwf : wq_wf wq)
    (hG : wq.index G = none ∨ (wq.index G = some STATUS_DEALT ∧
      ∃ t, wq.timestamps G = some t ∧ cur < t + WORKER_TIMEOUT)) :
    scan_sublist wq q cur mon ≠ some G := by
  intro h
  obtain ⟨rest, hq, hdealt⟩ := scan_sublist_eq_some h
  have hmem : G ∈ wq.queues q := by
    rw [hq]
    exact List.mem_cons_self _ _
  have hidx := hwf.2.1 G q hmem
  cases hG with
  | inl hnone =>
    rw [hnone] at hidx
    cases hidx
  | inr hstate =>
    obtain ⟨hidx2, t, hts, hcur⟩ := hstate
    have hqd : q = STATUS_DEALT := Option.some.inj (hidx.symm.trans hidx2)
    apply hdealt hqd
    rw [hts]
    simp only [Option.getD_some]
    unfold WORKER_TIMEOUT at hcur ⊢
    omega

theorem find_work_inv {db : MemDB} {cur mon : Int} {p : Int × Int} {tc af : Int} {gid : Nat}
    (h : find_work db cur mon p = some (tc, af, gid)) :
    p.1 = tc ∧ p.2 = af ∧ find_in_wq (db.work tc af) cur mon = some gid := by
  unfold find_work at h
  cases hf : find_in_wq (db.work p.1 p.2) cur mon with
  | none =>
    rw [hf] at h
    exact absurd h (by simp)
  | some g2 =>
    rw [hf] at h
    simp only [Option.map_some'] at h
    injection h with h2
    have h1 : p.1 = tc := congrArg (fun x => x.1) h2
    have h3 : p.2 = af := congrArg (fun x => x.2.1) h2
    have h4 : g2 = gid := congrArg (fun x => x.2.2) h2
    refine ⟨h1, h3, ?_⟩
    rw [← h1, ← h3, ← h4]
    exact hf

theorem allocate_ok_inv {db : MemDB} {afs tts : List Int} {cur mon : Int} {r : Option Nat}
    {db1 : MemDB} (h : allocate_work db afs tts cur mon = .ok (r, db1)) :
    (r = none ∧ db1 = db) ∨
    ∃ tc af gid wq2, r = some gid ∧
      find_in_wq (db.work tc af) cur mon = some gid ∧
      (db.work tc af).move_work gid STATUS_DEALT cur = .ok wq2 ∧
      db1.work = upd2 db.work tc af wq2 ∧
      db1.statuses = db.statuses ∧ db1.records = db.records := by
  unfold allocate_work at h
  cases hfind : (alloc_pairs tts afs).findSome? (find_work db cur mon) with
  | none =>
    rw [hfind] at h
    dsimp only at h
    injection h with h2
    exact Or.inl ⟨(congrArg Prod.fst h2).symm, (congrArg Prod.snd h2).symm⟩
  | some x =>
    obtain ⟨tc, af, gid⟩ := x
    rw [hfind] at h
    dsimp only at h
    obtain ⟨p, hp, hfw⟩ := findSome_mem hfind
    obtain ⟨h1, h2x, hfi⟩ := find_work_inv hfw
    cases hm : (db.work tc af).move_work gid STATUS_DEALT cur with
    | error e =>
      rw [hm] at h
      exact absurd h (by simp)
    | ok wq2 =>
      rw [hm] at h
      dsimp only at h
      injection h with h3
      have hr : r = some gid := (congrArg Prod.fst h3).symm
      have hdb : db1 = { db with work := upd2 db.work tc af wq2 } :=
        (congrArg Prod.snd h3).symm
      refine Or.inr ⟨tc, af, gid, wq2, hr, hfi, hm, ?_, ?_, ?_⟩
      · rw [hdb]
      · rw [hdb]
      · rw [hdb]

theorem dealt_alone_of_work {db dbx : MemDB} {T A tc af : Int} {G gid : Nat} {t : Int}
    {wq2 : WorkQueue} {v w : Option Int}
    (hda : dealt_alone db T A G t) (hgne : gid ≠ G) (hwf2 : wq_wf wq2)
    (hidx2 : wq2.index = upd (db.work tc af).index gid v)
    (hts2 : wq2.timestamps = upd (db.work tc af).timestamps gid w)
    (hwork : dbx.work = upd2 db.work tc af wq2) :
    dealt_alone dbx T A G t := by
  obtain ⟨hidxG, htsG, hother, hwfall⟩ := hda
  have hGne : G ≠ gid := fun h2 => hgne h2.symm
  refine ⟨?_, ?_, ?_, ?_⟩
  · show (dbx.work T A).index G = some STATUS_DEALT
    rw [hwork]
    by_cases hpair : T = tc ∧ A = af
    · rw [hpair.1, hpair.2] at hidxG ⊢
      rw [upd2_same, hidx2, upd_ne _ _ _ _ hGne]
      exact hidxG
    · rw [upd2_ne _ _ _ _ _ _ hpair]
      exact hidxG
  · show (dbx.work T A).timestamps G = some t
    rw [hwork]
    by_cases hpair : T = tc ∧ A = af
    · rw [hpair.1, hpair.2] at htsG ⊢
      rw [upd2_same, hts2, upd_ne _ _ _ _ hGne]
      exact htsG
    · rw [upd2_ne _ _ _ _ _ _ hpair]
      exact htsG
  · intro tt af2 hne
    show (dbx.work tt af2).index G = none
    rw [hwork]
    by_cases hpair : tt = tc ∧ af2 = af
    · rw [hpair.1, hpair.2, upd2_same, hidx2, upd_ne _ _ _ _ hGne]
      exact hother tc af (fun hTA => hne ⟨hpair.1.trans hTA.1, hpair.2.trans hTA.2⟩)
    · rw [upd2_ne _ _ _ _ _ _ hpair]
      exact hother tt af2 hne
  · intro tt af2
    show wq_wf (dbx.work tt af2)
    rw [hwork]
    by_cases hpair : tt = tc ∧ af2 = af
    · rw [hpair.1, hpair.2, upd2_same]
      exact hwf2
    · rw [upd2_ne _ _ _ _ _ _ hpair]
      exact hwfall tt af2

theorem completes_group_congr {dbx db : MemDB} (sid : Nat)
    (hs : dbx.statuses sid = db.statuses sid) (hr : dbx.records = db.records) :
    completes_group dbx sid = completes_group db sid := by
  unfold completes_group
  rw [hs, hr]

theorem allocate_ok_no_G {db : MemDB} {afs tts : List Int} {cur mon : Int} {r : Option Nat}
    {db1 : MemDB} {T A : Int} {G : Nat} {t : Int}
    (hda : dealt_alone db T A G t) (hcur : cur < t + WORKER_TIMEOUT)
    (h : allocate_work db afs tts cur mon = .ok (r, db1)) :
    r ≠ some G ∧ dealt_alone db1 T A G t ∧
    db1.statuses = db.statuses ∧ db1.records = db.records := by
  rcases allocate_ok_inv h with ⟨hr, hdb⟩ | ⟨tc, af, gid, wq2, hr, hfi, hm, hwork, hstat, hrec⟩
  · subst hdb
    rw [hr]
    exact ⟨by simp, hda, rfl, rfl⟩
  · have hgne : gid ≠ G := by
      intro hg
      subst hg
      have hfi2 : alloc_scan_order.findSome?
          (fun q => scan_sublist (db.work tc af) q cur mon) = some gid := hfi
      obtain ⟨q, hqmem, hscan⟩ := findSome_mem hfi2
      have hG2 : (db.work tc af).index gid = none ∨
          ((db.work tc af).index gid = some STATUS_DEALT ∧
            ∃ t2, (db.work tc af).timestamps gid = some t2 ∧ cur < t2 + WORKER_TIMEOUT) := by
        by_cases hpair : tc = T ∧ af = A
        · rw [hpair.1, hpair.2]
          exact Or.inr ⟨hda.1, t, hda.2.1, hcur⟩
        · exact Or.inl (hda.2.2.1 tc af hpair)
      exact scan_ne (hda.2.2.2 tc af) hG2 hscan
    obtain ⟨hwf2, hidx2, hts2⟩ := move_work_wf (hda.2.2.2 tc af) hm
    refine ⟨?_, dealt_alone_of_work hda hgne hwf2 hidx2 hts2 hwork, hstat, hrec⟩
    rw [hr]
    intro hco
    injection hco with h4
    exact hgne h4

theorem update_status_fields_keys (st : StatusRow) (s q t : Int) :
    (update_status_fields st s q t).table_type = st.table_type ∧
    (update_status_fields st s q t).row_id = st.row_id := by
  unfold update_status_fields
  by_cases hs : s ≠ 0 <;> simp [hs]

theorem mark_ok_no_G {db : MemDB} {s : Int} {sid : Nat} {t2 : Int} {db1 : MemDB}
    {T A : Int} {G : Nat} {t : Int}
    (hda : dealt_alone db T A G t) (hgrp : completes_group db sid ≠ some G)
    (h : mark_complete db s sid t2 = .ok db1) :
    dealt_alone db1 T A G t ∧
    ∀ sid2, completes_group db1 sid2 = completes_group db sid2 := by
  obtain ⟨status, record, wq2, hs0, hr0, hm0, hdb1⟩ := mark_complete_ok_elim h
  have hstat1 : db1.statuses = upd db.statuses sid
      (some (update_status_fields status s (mark_status_type status s) t2)) := by
    rw [hdb1]
  have hrec1 : db1.records = db.records := by rw [hdb1]
  have hwork1 : db1.work = upd2 db.work status.table_type record.af wq2 := by rw [hdb1]
  have hgne : record.group_id ≠ G := by
    intro hg
    apply hgrp
    unfold completes_group
    rw [hs0]
    dsimp only
    rw [hr0]
    dsimp only
    exact congrArg some hg
  obtain ⟨hwf2, hidx2, hts2⟩ := move_work_wf (hda.2.2.2 status.table_type record.af) hm0
  refine ⟨dealt_alone_of_work hda hgne hwf2 hidx2 hts2 hwork1, ?_⟩
  intro sid2
  by_cases hsid : sid2 = sid
  · subst hsid
    have hkeys := update_status_fields_keys status s (mark_status_type status s) t2
    have hLstat : db1.statuses sid2 =
        some (update_status_fields status s (mark_status_type status s) t2) := by
      rw [hstat1]
      exact upd_same _ _ _
    unfold completes_group
    rw [hLstat, hs0]
    dsimp only
    rw [hrec1, hkeys.1, hkeys.2]
  · exact completes_group_congr sid2 (by rw [hstat1]; exact upd_ne _ _ _ _ hsid) hrec1

theorem step_preserves (db : MemDB) (op : Op) (T A : Int) (G : Nat) (t : Int)
    (R : Nat → Option Nat)
    (hda : dealt_alone db T A G t) (hR : ∀ sid, completes_group db sid = R sid)
    (hop : opOK G t R op) :
    dealt_alone (step db op) T A G t ∧
    (∀ sid, completes_group (step db op) sid = R sid) ∧
    alloc_result db op ≠ some G := by
  cases op with
  | alloc afs tts cur mon =>
    have hcur : cur < t + WORKER_TIMEOUT := hop
    cases halloc : allocate_work db afs tts cur mon with
    | error e =>
      have hstep : step db (Op.alloc afs tts cur mon) = db := by
        simp only [step, halloc]
      have hres : alloc_result db (Op.alloc afs tts cur mon) = none := by
        simp only [alloc_result, halloc]
      rw [hstep, hres]
      exact ⟨hda, hR, by simp⟩
    | ok rd =>
      obtain ⟨r, db1⟩ := rd
      have hstep : step db (Op.alloc afs tts cur mon) = db1 := by
        simp only [step, halloc]
      have hres : alloc_result db (Op.alloc afs tts cur mon) = r := by
        simp only [alloc_result, halloc]
      obtain ⟨hrne, hda1, hstat, hrec⟩ := allocate_ok_no_G hda hcur halloc
      rw [hstep, hres]
      refine ⟨hda1, ?_, hrne⟩
      intro sid
      rw [completes_group_congr sid (congrFun hstat sid) hrec]
      exact hR sid
  | complete s sid t2 =>
    have hgrp : completes_group db sid ≠ some G := by
      rw [hR sid]
      exact hop
    cases hmc : mark_complete db s sid t2 with
    | error e =>
      have hstep : step db (Op.complete s sid t2) = db := by
        simp only [step, hmc]
      rw [hstep]
      exact ⟨hda, hR, by simp [alloc_result]⟩
    | ok db1 =>
      have hstep : step db (Op.complete s sid t2) = db1 := by
        simp only [step, hmc]
      obtain ⟨hda1, hcg⟩ := mark_ok_no_G hda hgrp hmc
      rw [hstep]
      refine ⟨hda1, ?_, by simp [alloc_result]⟩
      intro sid2
      rw [hcg sid2]
      exact hR sid2
  | addGroup tt af gid now =>
    have hgne : gid ≠ G := hop
    cases hadd : (db.work tt af).add_work gid STATUS_INIT now with
    | error e =>
      have hstep : step db (Op.addGroup tt af gid now) = db := by
        simp only [step, hadd]
      rw [hstep]
      exact ⟨hda, hR, by simp [alloc_result]⟩
    | ok wq2 =>
      have hstep : step db (Op.addGroup tt af gid now) =
          { db with work := upd2 db.work tt af wq2 } := by
        simp only [step, hadd]
      obtain ⟨hwf2, hidx2, hold, hts2⟩ := add_work_wf (hda.2.2.2 tt af) hadd
      rw [hstep]
      refine ⟨dealt_alone_of_work hda hgne hwf2 hidx2 hts2 rfl, ?_, by simp [alloc_result]⟩
      intro sid
      rw [completes_group_congr sid rfl rfl]
      exact hR sid

theorem run_no_redeal (T A : Int) (G : Nat) (t : Int) (R : Nat → Option Nat) :
    ∀ (ops : List Op) (db : MemDB),
      dealt_alone db T A G t →
      (∀ sid, completes_group db sid = R sid) →
      (∀ op ∈ ops, opOK G t R op) →
      dealt_alone (run db ops) T A G t ∧
      ∀ pre op suf, ops = pre ++ op :: suf → alloc_result (run db pre) op ≠ some G := by
  intro ops
  induction ops with
  | nil =>
    intro db hda hR hops
    refine ⟨hda, ?_⟩
    intro pre op suf h
    cases pre <;> simp at h
  | cons op0 rest ih =>
    intro db hda hR hops
    obtain ⟨hda1, hR1, hres⟩ :=
      step_preserves db op0 T A G t R hda hR (hops op0 (List.mem_cons_self _ _))
    have hrest := ih (step db op0) hda1 hR1 (fun op2 h2 => hops op2 (List.mem_cons_of_mem _ h2))
    refine ⟨hrest.1, ?_⟩
    intro pre op suf h
    cases pre with
    | nil =>
      have h2 : op0 = op ∧ rest = suf := by
        rw [List.nil_append] at h
        exact ⟨(List.cons.injEq _ _ _ _ ▸ h).1, (List.cons.injEq _ _ _ _ ▸ h).2⟩
      rw [← h2.1]
      exact hres
    | cons p pre2 =>
      rw [List.cons_append] at h
      injection h with h1 h2
      subst h1
      exact hrest.2 pre2 op suf h2

theorem alloc_establishes {db0 : MemDB} {afs tts : List Int} {t mon : Int} {G : Nat}
    {db1 : MemDB} (hwf : global_wf db0)
    (halloc : allocate_work db0 afs tts t mon = .ok (some G, db1)) :
    ∃ T A, dealt_alone db1 T A G t := by
  rcases allocate_ok_inv halloc with ⟨hr, _⟩ | ⟨tc, af, gid, wq2, hr, hfi, hm, hwork, _, _⟩
  · exact absurd hr (by simp)
  · have hgid : gid = G := by
      injection hr with h2
      exact h2.symm
    subst hgid
    obtain ⟨fq, hfq⟩ := move_work_isSome hm
    obtain ⟨hwf2, hidx2, hts2⟩ := move_work_wf (hwf.1 tc af) hm
    refine ⟨tc, af, ?_, ?_, ?_, ?_⟩
    · show (db1.work tc af).index gid = some STATUS_DEALT
      rw [hwork, upd2_same, hidx2, upd_same]
    · show (db1.work tc af).timestamps gid = some t
      rw [hwork, upd2_same, hts2, upd_same]
    · intro tt af2 hne
      show (db1.work tt af2).index gid = none
      rw [hwork]
      by_cases hpair : tt = tc ∧ af2 = af
      · exact absurd hpair hne
      · rw [upd2_ne _ _ _ _ _ _ hpair]
        cases hcase : (db0.work tt af2).index gid with
        | none => rfl
        | some q =>
          exfalso
          have h5 := hwf.2 gid tt af2 tc af (by rw [hcase]; simp) (by rw [hfq]; simp)
          exact hpair ⟨h5.1, h5.2⟩
    · intro tt af2
      show wq_wf (db1.work tt af2)
      rw [hwork]
      by_cases hpair : tt = tc ∧ af2 = af
      · rw [hpair.1, hpair.2, upd2_same]
        exact hwf2
      · rw [upd2_ne _ _ _ _ _ _ hpair]
        exact hwf.1 tt af2

theorem c1_wq_wf : wq_wf c1_wq := by
  refine ⟨?_, ?_, ?_⟩
  · intro q
    show (if q = STATUS_INIT then [7] else []).Nodup
    by_cases hq : q = STATUS_INIT
    · rw [if_pos hq]
      exact List.nodup_singleton 7
    · rw [if_neg hq]
      exact List.nodup_nil
  · intro id q hmem
    have hmem2 : id ∈ (if q = STATUS_INIT then [7] else []) := hmem
    show (if id = 7 then some STATUS_INIT else none) = some q
    by_cases hq : q = STATUS_INIT
    · rw [if_pos hq] at hmem2
      rw [List.mem_singleton] at hmem2
      rw [if_pos hmem2, hq]
    · rw [if_neg hq] at hmem2
      cases hmem2
  · intro id q hidx
    have hidx2 : (if id = 7 then some STATUS_INIT else none) = some q := hidx
    show id ∈ (if q = STATUS_INIT then [7] else [])
    by_cases hid : id = 7
    · rw [if_pos hid] at hidx2
      injection hidx2 with h2
      rw [if_pos h2.symm, hid]
      exact List.mem_singleton.mpr rfl
    · rw [if_neg hid] at hidx2
      exact Option.noConfusion hidx2

theorem c1_global_wf : global_wf c1_db := by
  constructor
  · intro tt af
    show wq_wf (if tt = SERVICES_TABLE_TYPE ∧ af = IP4 then c1_wq else WorkQueue.empty)
    by_cases hpair : tt = SERVICES_TABLE_TYPE ∧ af = IP4
    · rw [if_pos hpair]
      exact c1_wq_wf
    · rw [if_neg hpair]
      exact ⟨fun q => List.nodup_nil, fun id q hmem => absurd hmem (List.not_mem_nil id),
        fun id q hidx => Option.noConfusion hidx⟩
  · intro id tt af tt2 af2 h1 h2
    by_cases hp1 : tt = SERVICES_TABLE_TYPE ∧ af = IP4
    · by_cases hp2 : tt2 = SERVICES_TABLE_TYPE ∧ af2 = IP4
      · exact ⟨hp1.1.trans hp2.1.symm, hp1.2.trans hp2.2.symm⟩
      · exfalso
        apply h2
        show (if tt2 = SERVICES_TABLE_TYPE ∧ af2 = IP4 then c1_wq else WorkQueue.empty).index id
          = none
        rw [if_neg hp2]
        rfl
    · exfalso
      apply h1
      show (if tt = SERVICES_TABLE_TYPE ∧ af = IP4 then c1_wq else WorkQueue.empty).index id
        = none
      rw [if_neg hp1]
      rfl

/-- C1: once allocate_work hands out group G at time t from a well-formed
store, no later allocate_work call made before the worker timeout expires
(every intervening or final allocate runs at a time cur with
cur < t + WORKER_TIMEOUT = t + 120) returns G again, for any combination of
need_afs and table_types arguments, provided no intervening mark_complete
resolves to G and no new group is registered under the id G. -/
theorem allocate_no_redeal (db0 : MemDB) (afs0 tts0 : List Int) (t mon0 : Int) (G : Nat)
    (db1 : MemDB) (ops : List Op)
    (hwf : global_wf db0)
    (halloc : allocate_work db0 afs0 tts0 t mon0 = .ok (some G, db1))
    (hops : ∀ op ∈ ops, opOK G t (completes_group db1) op) :
    ∀ pre op suf, ops = pre ++ op :: suf → alloc_result (run db1 pre) op ≠ some G := by
  obtain ⟨T, A, hda⟩ := alloc_establishes hwf halloc
  exact (run_no_redeal T A G t (completes_group db1) ops db1 hda (fun _ => rfl) hops).2

theorem allocate_no_redeal_witness :
    alloc_result (run c1_db1 []) (Op.alloc [IP4] [SERVICES_TABLE_TYPE] 10050 3600) ≠ some 7 := by
  have halloc : allocate_work c1_db [IP4] [SERVICES_TABLE_TYPE] 10000 3600 =
      .ok (some 7, c1_db1) := rfl
  have hops : ∀ op ∈ [Op.alloc [IP4] [SERVICES_TABLE_TYPE] 10050 3600],
      opOK 7 10000 (completes_group c1_db1) op := by
    intro op hop
    rw [List.mem_singleton] at hop
    subst hop
    show (10050 : Int) < 10000 + WORKER_TIMEOUT
    decide
  exact allocate_no_redeal c1_db [IP4] [SERVICES_TABLE_TYPE] 10000 3600 7 c1_db1
    [Op.alloc [IP4] [SERVICES_TABLE_TYPE] 10050 3600] c1_global_wf halloc hops
    [] (Op.alloc [IP4] [SERVICES_TABLE_TYPE] 10050 3600) [] rfl

/-- C2 counterexample: in c2_db, allocate_work with the default table
priority hands out group 1 at time 10000; group 1 is then the only group
queued in its (aliases, IPv4) WorkQueue, no mark_complete intervenes, yet the
allocate_work call at time 10121 (elapsed 121 > WORKER_TIMEOUT) returns group
2, reclaimed from the (services, IPv4) available sublist whose monitor delay
expired in the meantime, not group 1. -/
theorem allocate_reclaim_counterexample :
    alloc_result c2_db (Op.alloc [IP4] TABLE_TYPES 10000 3600) = some 1 ∧
    (c2_db1.work ALIASES_TABLE_TYPE IP4).queues STATUS_INIT = [] ∧
    (c2_db1.work ALIASES_TABLE_TYPE IP4).queues STATUS_AVAILABLE = [] ∧
    (c2_db1.work ALIASES_TABLE_TYPE IP4).queues STATUS_DEALT = [1] ∧
    (c2_db1.work ALIASES_TABLE_TYPE IP4).timestamps 1 = some 10000 ∧
    alloc_result c2_db1 (Op.alloc [IP4] TABLE_TYPES 10121 3600) = some 2 := by
  decide

theorem c2w_wq_wf : wq_wf c2w_wq := by
  refine ⟨?_, ?_, ?_⟩
  · intro q
    show (if q = STATUS_DEALT then [4] else []).Nodup
    by_cases hq : q = STATUS_DEALT
    · rw [if_pos hq]
      exact List.nodup_singleton 4
    · rw [if_neg hq]
      exact List.nodup_nil
  · intro id q hmem
    have hmem2 : id ∈ (if q = STATUS_DEALT then [4] else []) := hmem
    show (if id = 4 then some STATUS_DEALT else none) = some q
    by_cases hq : q = STATUS_DEALT
    · rw [if_pos hq] at hmem2
      rw [List.mem_singleton] at hmem2
      rw [if_pos hmem2, hq]
    · rw [if_neg hq] at hmem2
      cases hmem2
  · intro id q hidx
    have hidx2 : (if id = 4 then some STATUS_DEALT else none) = some q := hidx
    show id ∈ (if q = STATUS_DEALT then [4] else [])
    by_cases hid : id = 4
    · rw [if_pos hid] at hidx2
      injection hidx2 with h2
      rw [if_pos h2.symm, hid]
      exact List.mem_singleton.mpr rfl
    · rw [if_neg hid] at hidx2
      exact Option.noConfusion hidx2

/-- C2 (amended): if group G sits alone in the dealt sublist of a well-formed
(T, A) queue with timestamp t and the queue's init and available sublists are
empty, then an allocate_work call restricted to that slot at any time t + d
with d at least WORKER_TIMEOUT reclaims G: it returns G, moved back to the
dealt sublist with its timestamp refreshed to t + d. -/
theorem allocate_reclaims (db : MemDB) (T A : Int) (G : Nat) (t d mon : Int)
    (hwf : wq_wf (db.work T A))
    (hinit : (db.work T A).queues STATUS_INIT = [])
    (havail : (db.work T A).queues STATUS_AVAILABLE = [])
    (hdealt : (db.work T A).queues STATUS_DEALT = [G])
    (hts : (db.work T A).timestamps G = some t)
    (hd : WORKER_TIMEOUT ≤ d) :
    ∃ db1, allocate_work db [A] [T] (t + d) mon = .ok (some G, db1) ∧
      (db1.work T A).index G = some STATUS_DEALT ∧
      (db1.work T A).timestamps G = some (t + d) ∧
      G ∈ (db1.work T A).queues STATUS_DEALT := by
  have hmemG : G ∈ (db.work T A).queues STATUS_DEALT := by
    rw [hdealt]
    exact List.mem_singleton.mpr rfl
  have hidxG : (db.work T A).index G = some STATUS_DEALT := hwf.2.1 G _ hmemG
  have hscan_init : scan_sublist (db.work T A) STATUS_INIT (t + d) mon = none := by
    unfold scan_sublist
    rw [hinit]
  have hscan_avail : scan_sublist (db.work T A) STATUS_AVAILABLE (t + d) mon = none := by
    unfold scan_sublist
    rw [havail]
  have hscan_dealt : scan_sublist (db.work T A) STATUS_DEALT (t + d) mon = some G := by
    unfold scan_sublist
    rw [hdealt]
    dsimp only
    rw [if_neg (by decide : ¬ ((STATUS_DEALT : Int) = STATUS_INIT))]
    rw [hts]
    simp only [Option.getD_some]
    have h1 : ¬ ((STATUS_DEALT : Int) ≠ STATUS_DEALT ∧ max 0 (t + d - t) < mon) :=
      fun hc => hc.1 rfl
    rw [if_neg h1]
    have h2 : ¬ (True ∧ max 0 (t + d - t) < WORKER_TIMEOUT) := by
      intro hc
      have h3 := hc.2
      have h4 : t + d - t = d := by ring
      rw [h4] at h3
      have h5 : (d : Int) ≤ max 0 d := le_max_right 0 d
      unfold WORKER_TIMEOUT at h3 hd
      linarith
    rw [if_neg h2]
  have hfind : find_in_wq (db.work T A) (t + d) mon = some G := by
    unfold find_in_wq alloc_scan_order
    rw [List.findSome?_cons, hscan_init]
    dsimp only
    rw [List.findSome?_cons, hscan_avail]
    dsimp only
    rw [List.findSome?_cons, hscan_dealt]
  have hfw : find_work db (t + d) mon (T, A) = some (T, A, G) := by
    unfold find_work
    dsimp only
    rw [hfind]
    rfl
  have hmv := move_work_ok (db.work T A) G STATUS_DEALT (t + d) STATUS_DEALT hidxG
  refine ⟨{ db with work := upd2 db.work T A { queues := upd (upd (db.work T A).queues STATUS_DEALT (((db.work T A).queues STATUS_DEALT).erase G)) STATUS_DEALT ((upd (db.work T A).queues STATUS_DEALT (((db.work T A).queues STATUS_DEALT).erase G)) STATUS_DEALT ++ [G]), index := upd (db.work T A).index G (some STATUS_DEALT), timestamps := upd (db.work T A).timestamps G (some (t + d)) } }, ?_, ?_, ?_, ?_⟩
  · unfold allocate_work
    rw [show alloc_pairs [T] [A] = [(T, A)] from rfl]
    rw [List.findSome?_cons, hfw]
    dsimp only
    rw [hmv]
  · show (upd2 db.work T A _ T A).index G = some STATUS_DEALT
    rw [upd2_same]
    exact upd_same _ _ _
  · show (upd2 db.work T A _ T A).timestamps G = some (t + d)
    rw [upd2_same]
    exact upd_same _ _ _
  · show G ∈ (upd2 db.work T A _ T A).queues STATUS_DEALT
    rw [upd2_same]
    exact List.mem_append_right _ (List.mem_singleton.mpr rfl)

theorem allocate_reclaims_witness :
    ∃ db1, allocate_work c2w_db [IP4] [SERVICES_TABLE_TYPE] (500 + 121) 3600 =
        .ok (some 4, db1) ∧
      (db1.work SERVICES_TABLE_TYPE IP4).index 4 = some STATUS_DEALT ∧
      (db1.work SERVICES_TABLE_TYPE IP4).timestamps 4 = some (500 + 121) ∧
      4 ∈ (db1.work SERVICES_TABLE_TYPE IP4).queues STATUS_DEALT := by
  exact allocate_reclaims c2w_db SERVICES_TABLE_TYPE IP4 4 500 121 3600
    c2w_wq_wf rfl rfl rfl rfl (by decide)

end Dogdorm
